import Mathlib

/-!
Verification of the monaco-error-lens marker-to-decoration pipeline.

The definitions below are a shallow embedding of the TypeScript sources:
`src/utils.ts` (severity classification, message templating/truncation,
option merging, marker sorting, grouping-by-line), `src/decorations.ts`
(the decoration builder) and `src/monaco-error-lens.ts` (the orchestrator:
filtering, lifecycle methods, configuration updates).  JavaScript strings
are modelled as Lean `String` (a list of characters), JavaScript numbers
that hold line numbers, severities and lengths as `Nat`, and fallible or
optional values as `Option`.  `Array.prototype.sort` is required by
ECMA-262 to be a stable sort consistent with the comparator, which for the
comparators in this code base determines the output uniquely; the embedding
realises it with an insertion sort, which is stable.
-/

namespace MonacoErrorLens

/-- A host-supplied diagnostic marker (`MonacoMarkerData`).  `message` is a
required string field; `source` and `code` are optional. -/
structure Marker where
  startLineNumber : Nat
  startColumn : Nat
  endLineNumber : Nat
  endColumn : Nat
  message : String
  severity : Nat
  source : Option String
  code : Option String
deriving Repr, DecidableEq

/-- Cursor-follow mode: `allLines` or `activeLine`. -/
inductive FollowCursor where
  | allLines
  | activeLine
deriving Repr, DecidableEq

/-- One severity's color pair (background, foreground), each optional. -/
structure ColorPair where
  background : Option String
  foreground : Option String
deriving Repr, DecidableEq

/-- The per-severity color map (`ErrorLensColors`). -/
structure Colors where
  error : ColorPair
  warning : ColorPair
  info : ColorPair
  hint : ColorPair
deriving Repr, DecidableEq

/-- The fully-populated configuration (`ErrorLensConfig` =
`Required<ErrorLensOptions>`). -/
structure Config where
  enableInlineMessages : Bool
  enableLineHighlights : Bool
  enableGutterIcons : Bool
  messageTemplate : String
  followCursor : FollowCursor
  maxMessageLength : Nat
  maxMarkersPerLine : Nat
  severityFilter : List Nat
  updateDelay : Nat
  colors : Colors
  enabled : Bool
deriving Repr, DecidableEq

/-- A partial options object (`ErrorLensOptions`): every field optional. -/
structure Options where
  enableInlineMessages : Option Bool := none
  enableLineHighlights : Option Bool := none
  enableGutterIcons : Option Bool := none
  messageTemplate : Option String := none
  followCursor : Option FollowCursor := none
  maxMessageLength : Option Nat := none
  maxMarkersPerLine : Option Nat := none
  severityFilter : Option (List Nat) := none
  updateDelay : Option Nat := none
  colors : Option Colors := none
  enabled : Option Bool := none
deriving Repr

/-- Modelled from the spec: `SEVERITY_LEVELS` lives in `src/types.ts`, which
is not under `src/`; spec §3 fixes the encoding hint=1, info=2, warning=4,
error=8, matching the literals hard-coded in `decorations.ts`. -/
def SEVERITY_ERROR : Nat := 8

/-- Modelled from the spec: see `SEVERITY_ERROR`. -/
def SEVERITY_WARNING : Nat := 4

/-- Modelled from the spec: see `SEVERITY_ERROR`. -/
def SEVERITY_INFO : Nat := 2

/-- Modelled from the spec: see `SEVERITY_ERROR`. -/
def SEVERITY_HINT : Nat := 1

/-- Modelled from the spec: `CSS_CLASSES.LINE` from the missing
`src/types.ts`; the class family names appear in the generated CSS of
`monaco-error-lens.ts` and in the stylesheet. -/
def CSS_LINE : String := "monaco-error-lens-line"

/-- Modelled from the spec: see `CSS_LINE`. -/
def CSS_MESSAGE : String := "monaco-error-lens-message"

/-- Modelled from the spec: see `CSS_LINE`. -/
def CSS_GUTTER : String := "monaco-error-lens-gutter"

/-- JavaScript truthiness of an optional string (`undefined` and the empty
string are falsy). -/
def jsTruthy : Option String → Bool
  | none => false
  | some s => !(s == "")

/-- `utils.ts` `getSeverityClass`: converts a marker severity to a CSS class
suffix (8→error, 4→warning, 2→info, 1→hint, else→unknown). -/
def getSeverityClass (severity : Nat) : String :=
  if severity == SEVERITY_ERROR then "error"
  else if severity == SEVERITY_WARNING then "warning"
  else if severity == SEVERITY_INFO then "info"
  else if severity == SEVERITY_HINT then "hint"
  else "unknown"

/-- JavaScript `String.prototype.replace` with a string pattern replaces only
the first occurrence; character-list version. -/
def replaceFirstChars (pat rep : List Char) : List Char → List Char
  | [] => if pat = [] then rep else []
  | c :: rest =>
    if pat.isPrefixOf (c :: rest) then rep ++ (c :: rest).drop pat.length
    else c :: replaceFirstChars pat rep rest

/-- JavaScript `s.replace(pat, rep)` for string patterns (first occurrence
only). -/
def replaceFirst (s pat rep : String) : String :=
  ⟨replaceFirstChars pat.data rep.data s.data⟩

/-- `utils.ts` `formatMessage`: substitute `{message}`, `{source}`, `{code}`
into the template (first occurrence each, in that order), then truncate to
`maxLength` characters, replacing the tail with `"..."`, when `maxLength` is
truthy and exceeded. -/
def formatMessage (marker : Marker) (template : String := "{message}")
    (maxLength : Option Nat := none) : String :=
  let formatted :=
    replaceFirst
      (replaceFirst
        (replaceFirst template "{message}" marker.message)
        "{source}" (marker.source.getD ""))
      "{code}" (if jsTruthy marker.code then marker.code.getD "" else "")
  match maxLength with
  | none => formatted
  | some m =>
    if 0 < m ∧ m < formatted.length then
      ⟨formatted.data.take (m - 3) ++ ("...").data⟩
    else formatted

/-- `utils.ts` `mergeOptions`: shallow merge of user options onto defaults,
except `colors`, which merges per severity per channel with hard-coded
final fallbacks. -/
def mergeOptions (defaultOptions : Config) (userOptions : Options) : Config :=
  { enableInlineMessages :=
      userOptions.enableInlineMessages.getD defaultOptions.enableInlineMessages
    enableLineHighlights :=
      userOptions.enableLineHighlights.getD defaultOptions.enableLineHighlights
    enableGutterIcons :=
      userOptions.enableGutterIcons.getD defaultOptions.enableGutterIcons
    messageTemplate :=
      userOptions.messageTemplate.getD defaultOptions.messageTemplate
    followCursor := userOptions.followCursor.getD defaultOptions.followCursor
    maxMessageLength :=
      userOptions.maxMessageLength.getD defaultOptions.maxMessageLength
    maxMarkersPerLine :=
      userOptions.maxMarkersPerLine.getD defaultOptions.maxMarkersPerLine
    severityFilter :=
      userOptions.severityFilter.getD defaultOptions.severityFilter
    updateDelay := userOptions.updateDelay.getD defaultOptions.updateDelay
    colors :=
      { error :=
          { background :=
              ((userOptions.colors.map (·.error.background)).getD none).orElse
                (fun _ => (defaultOptions.colors.error.background).orElse
                  (fun _ => some "rgba(228, 85, 84, 0.15)"))
            foreground :=
              ((userOptions.colors.map (·.error.foreground)).getD none).orElse
                (fun _ => (defaultOptions.colors.error.foreground).orElse
                  (fun _ => some "#ff6464")) }
        warning :=
          { background :=
              ((userOptions.colors.map (·.warning.background)).getD none).orElse
                (fun _ => (defaultOptions.colors.warning.background).orElse
                  (fun _ => some "rgba(255, 148, 47, 0.15)"))
            foreground :=
              ((userOptions.colors.map (·.warning.foreground)).getD none).orElse
                (fun _ => (defaultOptions.colors.warning.foreground).orElse
                  (fun _ => some "#fa973a")) }
        info :=
          { background :=
              ((userOptions.colors.map (·.info.background)).getD none).orElse
                (fun _ => (defaultOptions.colors.info.background).orElse
                  (fun _ => some "rgba(0, 183, 228, 0.15)"))
            foreground :=
              ((userOptions.colors.map (·.info.foreground)).getD none).orElse
                (fun _ => (defaultOptions.colors.info.foreground).orElse
                  (fun _ => some "#00b7e4")) }
        hint :=
          { background :=
              ((userOptions.colors.map (·.hint.background)).getD none).orElse
                (fun _ => (defaultOptions.colors.hint.background).orElse
                  (fun _ => some "rgba(119, 136, 153, 0.15)"))
            foreground :=
              ((userOptions.colors.map (·.hint.foreground)).getD none).orElse
                (fun _ => (defaultOptions.colors.hint.foreground).orElse
                  (fun _ => some "#778899")) } }
    enabled := userOptions.enabled.getD defaultOptions.enabled }

/-- The order realised by the `sortMarkers` comparator
`(a, b) => a.startLineNumber - b.startLineNumber || b.severity - a.severity`:
`a` may come before `b` iff the comparator is ≤ 0 on `(a, b)`. -/
def markerLE (a b : Marker) : Prop :=
  a.startLineNumber < b.startLineNumber ∨
    (a.startLineNumber = b.startLineNumber ∧ b.severity ≤ a.severity)

instance : DecidableRel markerLE := fun a b => by
  unfold markerLE; infer_instance

instance : IsTotal Marker markerLE where
  total a b := by
    unfold markerLE
    rcases Nat.lt_trichotomy a.startLineNumber b.startLineNumber with h | h | h
    · exact Or.inl (Or.inl h)
    · rcases Nat.le_total b.severity a.severity with hs | hs
      · exact Or.inl (Or.inr ⟨h, hs⟩)
      · exact Or.inr (Or.inr ⟨h.symm, hs⟩)
    · exact Or.inr (Or.inl h)

instance : IsTrans Marker markerLE where
  trans a b c hab hbc := by
    unfold markerLE at *
    rcases hab with h1 | ⟨h1, s1⟩
    · rcases hbc with h2 | ⟨h2, _⟩
      · exact Or.inl (Nat.lt_trans h1 h2)
      · exact Or.inl (h2 ▸ h1)
    · rcases hbc with h2 | ⟨h2, s2⟩
      · exact Or.inl (h1 ▸ h2)
      · exact Or.inr ⟨h1.trans h2, Nat.le_trans s2 s1⟩

/-- `utils.ts` `sortMarkers`: sort ascending by line number, and within a
line descending by severity, stably (ECMA-262 `Array.prototype.sort`). -/
def sortMarkers (markers : List Marker) : List Marker :=
  markers.insertionSort markerLE

/-- One step of the grouping loops in `utils.ts` `groupMarkersByLine` and
`DecorationManager.groupMarkersByLine`: append the marker to its line's
entry, creating the entry at the end on first sight of the line (JavaScript
`Map` iterates keys in insertion order). -/
def groupInsert (grouped : List (Nat × List Marker)) (marker : Marker) :
    List (Nat × List Marker) :=
  if (grouped.map Prod.fst).contains marker.startLineNumber then
    grouped.map fun e =>
      if e.1 == marker.startLineNumber then (e.1, e.2 ++ [marker]) else e
  else grouped ++ [(marker.startLineNumber, [marker])]

/-- `utils.ts` `groupMarkersByLine`: the insertion-ordered map from line
number to that line's markers, in input order. -/
def groupMarkersByLine (markers : List Marker) : List (Nat × List Marker) :=
  markers.foldl groupInsert []

/-- First step of `MonacoErrorLens.filterMarkers`: drop markers whose
severity is not in the configured allow-list. -/
def severityFilterStep (config : Config) (markers : List Marker) :
    List Marker :=
  markers.filter fun marker => config.severityFilter.contains marker.severity

/-- Third step of `MonacoErrorLens.filterMarkers`: when following the
cursor, keep only markers starting on the current line — but only when a
truthy current line is available (`getPosition()?.lineNumber` then
`if (currentLine)`). -/
def cursorFilterStep (config : Config) (cursorLine : Option Nat)
    (markers : List Marker) : List Marker :=
  if config.followCursor = FollowCursor.activeLine then
    match cursorLine with
    | some currentLine =>
      if currentLine == 0 then markers
      else markers.filter fun marker => marker.startLineNumber == currentLine
    | none => markers
  else markers

/-- Fourth step of `MonacoErrorLens.filterMarkers`: when a positive per-line
cap is configured, rebuild the list from the line groups, each truncated to
the cap. -/
def perLineCapStep (config : Config) (markers : List Marker) : List Marker :=
  if 0 < config.maxMarkersPerLine then
    ((groupMarkersByLine markers).map fun e =>
      e.2.take config.maxMarkersPerLine).flatten
  else markers

/-- `MonacoErrorLens.filterMarkers`: severity allow-list, stable sort,
cursor-based filtering, then the per-line cap, in that order. -/
def filterMarkers (config : Config) (cursorLine : Option Nat)
    (markers : List Marker) : List Marker :=
  perLineCapStep config
    (cursorFilterStep config cursorLine
      (sortMarkers (severityFilterStep config markers)))

/-- The severity-descending order used by
`DecorationManager.groupMarkersByLine`'s per-line sort
`(a, b) => b.severity - a.severity`. -/
def sevGE (a b : Marker) : Prop := b.severity ≤ a.severity

instance : DecidableRel sevGE := fun a b => by
  unfold sevGE; infer_instance

instance : IsTotal Marker sevGE where
  total a b := Nat.le_total b.severity a.severity

instance : IsTrans Marker sevGE where
  trans _ _ _ hab hbc := Nat.le_trans hbc hab

/-- A Monaco decoration range (whole-line anchoring: column 1 to column 1). -/
structure DecRange where
  startLineNumber : Nat
  startColumn : Nat
  endLineNumber : Nat
  endColumn : Nat
deriving Repr, DecidableEq

/-- The `after` render option: trailing content and its inline class. -/
structure AfterOptions where
  content : String
  inlineClassName : String
deriving Repr, DecidableEq

/-- Monaco decoration options as populated by `createLineDecoration`. -/
structure DecorationOptions where
  stickiness : Nat
  isWholeLine : Option Bool := none
  className : Option String := none
  after : Option AfterOptions := none
  glyphMarginClassName : Option String := none
  hoverMessage : Option String := none
deriving Repr, DecidableEq

/-- One visual decoration: a line range plus options. -/
structure Decoration where
  range : DecRange
  options : DecorationOptions
deriving Repr, DecidableEq

/-- `DecorationManager.getSeverityLabel`: human-readable severity label. -/
def getSeverityLabel (severity : Nat) : String :=
  if severity == 8 then "Error"
  else if severity == 4 then "Warning"
  else if severity == 2 then "Info"
  else if severity == 1 then "Hint"
  else "Unknown"

/-- The per-marker line of `DecorationManager.createHoverMessage`:
`**SeverityLabel** [source]: message` (source bracket only when truthy). -/
def hoverLine (marker : Marker) : String :=
  "**" ++ getSeverityLabel marker.severity ++ "**" ++
    (if jsTruthy marker.source then " [" ++ marker.source.getD "" ++ "]" else "") ++
    ": " ++ marker.message

/-- `DecorationManager.createHoverMessage`: one formatted line for a single
marker, otherwise the formatted lines joined by blank lines. -/
def createHoverMessage (markers : List Marker) : String :=
  if markers.length == 1 then
    match markers.head? with
    | none => ""
    | some marker => hoverLine marker
  else String.intercalate "\n\n" (markers.map hoverLine)

/-- `DecorationManager.groupMarkersByLine`: the same insertion-ordered
grouping loop as `utils.ts`, followed by an in-place stable sort of each
line's group by descending severity. -/
def dmGroupMarkersByLine (markers : List Marker) :
    List (Nat × List Marker) :=
  (markers.foldl groupInsert []).map fun e => (e.1, e.2.insertionSort sevGE)

/-- `DecorationManager.createLineDecoration`: build the single decoration
for one line from its severity-sorted marker group.  The primary marker is
the group's first element.  `hasRange` models the availability of the host's
`monaco.Range` constructor; without it the method returns `null`. -/
def createLineDecoration (config : Config) (hasRange : Bool)
    (lineNumber : Nat) (markers : List Marker) : Option Decoration :=
  match markers.head? with
  | none => none
  | some primaryMarker =>
    let severityClass := getSeverityClass primaryMarker.severity
    let options : DecorationOptions := { stickiness := 1 }
    let options :=
      if config.enableLineHighlights then
        { options with
          isWholeLine := some true
          className := some (CSS_LINE ++ " " ++ CSS_LINE ++ "-" ++ severityClass) }
      else options
    let options :=
      if config.enableInlineMessages then
        { options with
          after := some
            { content := formatMessage primaryMarker config.messageTemplate
                (some config.maxMessageLength)
              inlineClassName :=
                CSS_MESSAGE ++ " " ++ CSS_MESSAGE ++ "-" ++ severityClass } }
      else options
    let options :=
      if config.enableGutterIcons then
        { options with
          glyphMarginClassName :=
            some (CSS_GUTTER ++ " " ++ CSS_GUTTER ++ "-" ++ severityClass) }
      else options
    let options := { options with hoverMessage := some (createHoverMessage markers) }
    if hasRange then
      some
        { range :=
            { startLineNumber := lineNumber
              startColumn := 1
              endLineNumber := lineNumber
              endColumn := 1 }
          options := options }
    else none

/-- `DecorationManager.createDecorations`: group the filtered markers by
line and push one decoration per non-empty group (skipping groups whose
construction yields nothing). -/
def createDecorations (config : Config) (hasRange : Bool)
    (markers : List Marker) : List Decoration :=
  (dmGroupMarkersByLine markers).foldl
    (fun decorations e =>
      match e.2.head? with
      | none => decorations
      | some _ =>
        match createLineDecoration config hasRange e.1 e.2 with
        | some decoration => decorations ++ [decoration]
        | none => decorations)
    []

/-! ### Array-level model of `filterMarkers`

JavaScript arrays are mutable references.  To state that the pipeline never
reorders the host-supplied marker array, the pipeline is repeated at the
level of a store of arrays: `[...markers]` and `Array.prototype.filter`
allocate fresh arrays, while `sortMarkers` sorts its argument in place. -/

/-- A heap of JavaScript marker arrays, indexed by reference. -/
abbrev Store := List (List Marker)

/-- Allocate a fresh array holding `content`; returns the new store and the
fresh reference. -/
def allocArr (st : Store) (content : List Marker) : Store × Nat :=
  (st ++ [content], st.length)

/-- Dereference an array. -/
def readArr (st : Store) (r : Nat) : List Marker := st.getD r []

/-- Overwrite an array in place. -/
def writeArr (st : Store) (r : Nat) (content : List Marker) : Store :=
  st.set r content

/-- `let filtered = [...markers]`: copy the host array into a fresh one. -/
def storeCopy (st : Store) (r0 : Nat) : Store × Nat :=
  allocArr st (readArr st r0)

/-- `filtered = filtered.filter(severity allow-list)`: a fresh array. -/
def storeSeverity (config : Config) (p : Store × Nat) : Store × Nat :=
  allocArr p.1 (severityFilterStep config (readArr p.1 p.2))

/-- `filtered = sortMarkers(filtered)`: sorts the array in place and returns
the same reference. -/
def storeSort (p : Store × Nat) : Store × Nat :=
  (writeArr p.1 p.2 (sortMarkers (readArr p.1 p.2)), p.2)

/-- The cursor-based filtering: a fresh array when the filter runs, the
same reference otherwise. -/
def storeCursor (config : Config) (cursorLine : Option Nat)
    (p : Store × Nat) : Store × Nat :=
  if config.followCursor = FollowCursor.activeLine then
    match cursorLine with
    | some currentLine =>
      if currentLine == 0 then p
      else
        allocArr p.1
          ((readArr p.1 p.2).filter fun marker =>
            marker.startLineNumber == currentLine)
    | none => p
  else p

/-- The per-line cap: `filtered = []` then pushing the capped groups builds
a fresh array; without a positive cap the reference is unchanged. -/
def storeCap (config : Config) (p : Store × Nat) : Store × Nat :=
  if 0 < config.maxMarkersPerLine then
    allocArr p.1
      (((groupMarkersByLine (readArr p.1 p.2)).map fun e =>
        e.2.take config.maxMarkersPerLine).flatten)
  else p

/-- `MonacoErrorLens.filterMarkers` at the array level: copy the host array
(`[...markers]`), filter by severity into a fresh array, sort that array in
place, cursor-filter into a fresh array when the filter runs, and rebuild a
fresh array from the capped line groups when the cap is positive.  Returns
the final store and the reference of the result array. -/
def filterMarkersStore (config : Config) (cursorLine : Option Nat)
    (st : Store) (r0 : Nat) : Store × Nat :=
  storeCap config
    (storeCursor config cursorLine
      (storeSort (storeSeverity config (storeCopy st r0))))

/-- The store grew only by fresh arrays past the original ones: every
original array reads back unchanged, and the tracked reference points into
the store at or past the original arrays. -/
def StoreExtends (st : Store) (p : Store × Nat) : Prop :=
  st.length ≤ p.1.length ∧ st.length ≤ p.2 ∧ p.2 < p.1.length ∧
    ∀ r, r < st.length → readArr p.1 r = readArr st r

/-! ### Orchestrator lifecycle model

`MonacoErrorLens`'s lifecycle methods run against a host editor whose calls
can throw.  Each host capability is modelled as an `Except`-valued
operation; a lifecycle method maps a state to a new state together with
`Except.ok` (completed) or `Except.error` (an exception propagated to the
caller).  State reached before a throw is kept, as in JavaScript.

The debounce helper is modelled from the spec: the cancellable
`debounce` variant returning `{ debouncedFn, cancel }` that
`monaco-error-lens.ts` imports lives in a `utils.ts` revision that is not
under `src/` (the utilities file present has a plain, non-cancellable
`debounce`).  Spec §5/§9: scheduling cancels the prior pending instance of
the same handle and a handle's `cancel` cancels exactly its own pending
task.  Each `debounce` call is given a fresh generation number; pending
tasks are `(generation, delay)` pairs. -/

/-- Whether an `Except`-valued host call completed without throwing. -/
def exceptOk {α : Type} : Except String α → Bool
  | Except.ok _ => true
  | Except.error _ => false

/-- The host editor and monaco module as consumed by the orchestrator. -/
structure Host where
  getModel : Except String (Option Unit)
  hasGetModelMarkersAPI : Bool
  hasOnDidChangeMarkersAPI : Bool
  getModelMarkers : Except String (Option (List Marker))
  getPosition : Except String (Option Nat)
  deltaDecorations : List String → List Decoration → Except String (List String)
  injectStylesOp : Except String Unit
  setupListenersOp : Except String Unit
  disposeListenersOp : Except String Unit
  hasRange : Bool

/-- `MonacoErrorLens.isMonacoInitialized`: the API presence checks don't
throw; `editor.getModel()` is only reached when both are present. -/
def isMonacoInitialized (host : Host) : Except String Bool :=
  if host.hasGetModelMarkersAPI && host.hasOnDidChangeMarkersAPI then
    match host.getModel with
    | Except.error e => Except.error e
    | Except.ok m => Except.ok m.isSome
  else Except.ok false

/-- The orchestrator's mutable state, together with two observability
channels: the chronological list of decoration batches submitted to
`deltaDecorations` and the number of `error` events emitted. -/
structure LensState where
  config : Config
  isDisposed : Bool
  dmDecorations : List String
  dmLastCount : Nat
  debounceGen : Nat
  debounceDelay : Nat
  pending : List (Nat × Nat)
  submittedBatches : List (List Decoration)
  errorEvents : Nat

/-- The debounced function: scheduling cancels the handle's prior pending
task and schedules a new one after the configured delay. -/
def scheduleUpdate (s : LensState) : LensState :=
  { s with pending :=
      s.pending.filter (fun t => t.1 != s.debounceGen) ++
        [(s.debounceGen, s.debounceDelay)] }

/-- The debounce handle's `cancel`: drop the handle's pending task. -/
def cancelUpdate (s : LensState) : LensState :=
  { s with pending := s.pending.filter fun t => t.1 != s.debounceGen }

/-- Emitting the `error` event (listener exceptions are swallowed by the
emitter, so emission never throws). -/
def emitErrorEvent (s : LensState) : LensState × Except String Unit :=
  ({ s with errorEvents := s.errorEvents + 1 }, Except.ok ())

/-- `MonacoErrorLens.updateDecorationsInternal`: guards, then a `try` block
around the marker query, filtering, decoration construction and submission;
exceptions inside the block are reported via the `error` event.  The calls
to `editor.getModel()` sit before the `try`. -/
def updateDecorationsInternal (host : Host) (s : LensState) :
    LensState × Except String Unit :=
  if s.isDisposed || !s.config.enabled then (s, Except.ok ())
  else
    match host.getModel with
    | Except.error e => (s, Except.error e)
    | Except.ok none => (s, Except.ok ())
    | Except.ok (some _) =>
      match isMonacoInitialized host with
      | Except.error e => (s, Except.error e)
      | Except.ok false => (s, Except.ok ())
      | Except.ok true =>
        match host.getModelMarkers with
        | Except.error _ => emitErrorEvent s
        | Except.ok markers =>
          let markersArray := markers.getD []
          match
            (if s.config.followCursor = FollowCursor.activeLine then
              host.getPosition
            else Except.ok none) with
          | Except.error _ => emitErrorEvent s
          | Except.ok cursorLine =>
            let filtered := filterMarkers s.config cursorLine markersArray
            let batch := createDecorations s.config host.hasRange filtered
            match host.deltaDecorations s.dmDecorations batch with
            | Except.error _ => emitErrorEvent s
            | Except.ok handles =>
              ({ s with
                  dmDecorations := handles
                  dmLastCount := batch.length
                  submittedBatches := s.submittedBatches ++ [batch] },
                Except.ok ())

/-- `DecorationManager.clearDecorations` as called by the orchestrator:
replace the current handles with the empty batch.  Not inside any
`try`/`catch`. -/
def clearDecorations (host : Host) (s : LensState) :
    LensState × Except String Unit :=
  match host.deltaDecorations s.dmDecorations [] with
  | Except.error e => (s, Except.error e)
  | Except.ok handles =>
    ({ s with
        dmDecorations := handles
        dmLastCount := 0
        submittedBatches := s.submittedBatches ++ [[]] },
      Except.ok ())

/-- `MonacoErrorLens.initialize`: style injection, listener setup (which
itself re-checks initialization), then an initial debounced update when
Monaco is ready.  None of it is inside a `try`/`catch`. -/
def initializeLens (host : Host) (s : LensState) :
    LensState × Except String Unit :=
  if !s.config.enabled then (s, Except.ok ())
  else
    match host.injectStylesOp with
    | Except.error e => (s, Except.error e)
    | Except.ok _ =>
      match isMonacoInitialized host with
      | Except.error e => (s, Except.error e)
      | Except.ok ready =>
        match (if ready then host.setupListenersOp else Except.ok ()) with
        | Except.error e => (s, Except.error e)
        | Except.ok _ =>
          match isMonacoInitialized host with
          | Except.error e => (s, Except.error e)
          | Except.ok true => (scheduleUpdate s, Except.ok ())
          | Except.ok false => (s, Except.ok ())

/-- `MonacoErrorLens.enable`. -/
def enable (host : Host) (s : LensState) : LensState × Except String Unit :=
  if !s.config.enabled then
    initializeLens host { s with config := { s.config with enabled := true } }
  else (s, Except.ok ())

/-- `MonacoErrorLens.disable`. -/
def disable (host : Host) (s : LensState) : LensState × Except String Unit :=
  if s.config.enabled then
    clearDecorations host { s with config := { s.config with enabled := false } }
  else (s, Except.ok ())

/-- `MonacoErrorLens.toggle`. -/
def toggle (host : Host) (s : LensState) : LensState × Except String Unit :=
  if s.config.enabled then disable host s else enable host s

/-- `MonacoErrorLens.refresh`: bypasses the debounce and recomputes
synchronously. -/
def refresh (host : Host) (s : LensState) : LensState × Except String Unit :=
  updateDecorationsInternal host s

/-- `MonacoErrorLens.dispose`: idempotent; cancels the pending debounced
update, clears decorations, detaches listeners, clears the emitter. -/
def dispose (host : Host) (s : LensState) : LensState × Except String Unit :=
  if s.isDisposed then (s, Except.ok ())
  else
    let s := cancelUpdate { s with isDisposed := true }
    match clearDecorations host s with
    | (s, Except.error e) => (s, Except.error e)
    | (s, Except.ok _) =>
      match host.disposeListenersOp with
      | Except.error e => (s, Except.error e)
      | Except.ok _ => (s, Except.ok ())

/-- First statement of `MonacoErrorLens.updateOptions`: shallow-merge the
partial options into the configuration (shared with the decoration
manager). -/
def updateOptionsMerge (u : Options) (s : LensState) : LensState :=
  { s with config := mergeOptions s.config u }

/-- The `updateDelay !== undefined` branch of `updateOptions`: cancel the
old debounce handle's pending task and build a fresh handle (a new
generation) carrying the merged delay. -/
def updateOptionsDelay (u : Options) (s : LensState) : LensState :=
  if u.updateDelay.isSome then
    { cancelUpdate s with
        debounceGen := (cancelUpdate s).debounceGen + 1
        debounceDelay := (cancelUpdate s).config.updateDelay }
  else s

/-- The dispatch of `updateOptions` after merging and timer rebuild:
`enabled` changes route through initialization/clearing (the old `enabled`
was read before the merge), anything else schedules one debounced
recomputation; the trailing `config-updated` emission never throws. -/
def updateOptions (host : Host) (u : Options) (s : LensState) :
    LensState × Except String Unit :=
  match u.enabled with
  | some b =>
    if b && !s.config.enabled then
      initializeLens host (updateOptionsDelay u (updateOptionsMerge u s))
    else if !b && s.config.enabled then
      clearDecorations host (updateOptionsDelay u (updateOptionsMerge u s))
    else (updateOptionsDelay u (updateOptionsMerge u s), Except.ok ())
  | none =>
    (scheduleUpdate (updateOptionsDelay u (updateOptionsMerge u s)),
      Except.ok ())

/-- The lifecycle operations a host integration can invoke, plus the timer
firing the earliest pending debounced task. -/
inductive LifeOp where
  | enableOp
  | disableOp
  | toggleOp
  | refreshOp
  | disposeOp
  | updateOptionsOp (u : Options)
  | fireOp

/-- Run one lifecycle operation. -/
def applyOp (host : Host) (op : LifeOp) (s : LensState) :
    LensState × Except String Unit :=
  match op with
  | LifeOp.enableOp => enable host s
  | LifeOp.disableOp => disable host s
  | LifeOp.toggleOp => toggle host s
  | LifeOp.refreshOp => refresh host s
  | LifeOp.disposeOp => dispose host s
  | LifeOp.updateOptionsOp u => updateOptions host u s
  | LifeOp.fireOp =>
    match s.pending with
    | [] => (s, Except.ok ())
    | _ :: rest => updateDecorationsInternal host { s with pending := rest }

/-- Run a sequence of lifecycle operations, keeping the state across thrown
exceptions (as the JavaScript object would persist). -/
def runOps (host : Host) (ops : List LifeOp) (s : LensState) : LensState :=
  ops.foldl (fun s op => (applyOp host op s).1) s

/-! ### Auxiliary definitions used to state the properties -/

/-- Whether `pat` occurs as a contiguous substring of `s`. -/
def hasSubstr (pat : List Char) : List Char → Bool
  | [] => pat.isEmpty
  | c :: rest => pat.isPrefixOf (c :: rest) || hasSubstr pat rest

/-- `pat` occurs in `s` as the contiguous segment starting at index `i`. -/
def occursAt (pat s : List Char) (i : Nat) : Prop :=
  pat <+: s.drop i

instance instDecidableOccursAt (pat s : List Char) :
    DecidablePred (occursAt pat s) := fun i =>
  inferInstanceAs (Decidable (pat <+: s.drop i))

/-- The shape shared by the three substitution tokens: an opening brace
followed by a brace-free tail (so two token occurrences never overlap). -/
def tokenLike (tok : List Char) : Prop :=
  ∃ t, tok = '{' :: t ∧ '{' ∉ t

/-- `tok` occurs at least twice in `s`, at two disjoint segments. -/
def hasTwo (tok s : List Char) : Prop :=
  ∃ i j, occursAt tok s i ∧ occursAt tok s j ∧ i + tok.length ≤ j

/-- Lookup of a line's group in an insertion-ordered grouping. -/
def lookupGroup (line : Nat) (grouped : List (Nat × List Marker)) :
    List Marker :=
  ((grouped.find? fun e => e.1 == line).map (·.2)).getD []

/-- An all-default (absent) color map, for concrete configurations. -/
def noColors : Colors :=
  { error := { background := none, foreground := none }
    warning := { background := none, foreground := none }
    info := { background := none, foreground := none }
    hint := { background := none, foreground := none } }

/-- A concrete configuration following the active line. -/
def cfgActive : Config :=
  { enableInlineMessages := true
    enableLineHighlights := true
    enableGutterIcons := false
    messageTemplate := "{message}"
    followCursor := FollowCursor.activeLine
    maxMessageLength := 150
    maxMarkersPerLine := 3
    severityFilter := [8, 4, 2, 1]
    updateDelay := 300
    colors := noColors
    enabled := true }

/-- A concrete configuration showing all lines. -/
def cfgAll : Config :=
  { cfgActive with followCursor := FollowCursor.allLines }

/-- A concrete configuration showing all lines with a per-line cap of 1. -/
def cfgCap1 : Config :=
  { cfgAll with maxMarkersPerLine := 1 }

/-- A concrete error marker on line 1. -/
def mk1 : Marker :=
  { startLineNumber := 1
    startColumn := 1
    endLineNumber := 1
    endColumn := 5
    message := "A"
    severity := 8
    source := none
    code := none }

/-- A concrete warning marker on line 1. -/
def mk2 : Marker :=
  { mk1 with message := "B", severity := 4 }

/-- A concrete info marker on line 3. -/
def mk3 : Marker :=
  { mk1 with startLineNumber := 3, endLineNumber := 3, message := "C"
             severity := 2 }

/-- The debounce generation `g` has been retired: the live handle is newer
and no pending task carries `g`, so a task scheduled under generation `g`
can never fire again. -/
def GenInvariant (g : Nat) (s : LensState) : Prop :=
  g < s.debounceGen ∧ ∀ t ∈ s.pending, t.1 ≠ g

/-- A throwaway decoration used as the default of list lookups. -/
def dDefault : Decoration :=
  { range := { startLineNumber := 0, startColumn := 0, endLineNumber := 0
               endColumn := 0 }
    options := { stickiness := 1 } }

/-- A concrete marker with message, source and code populated. -/
def wMarker : Marker :=
  { mk1 with message := "x", source := some "s", code := some "c" }

/-- A host whose every capability succeeds, serving markers `mk1, mk2, mk3`
with the cursor on line 1. -/
def goodHost : Host :=
  { getModel := Except.ok (some ())
    hasGetModelMarkersAPI := true
    hasOnDidChangeMarkersAPI := true
    getModelMarkers := Except.ok (some [mk1, mk2, mk3])
    getPosition := Except.ok (some 1)
    deltaDecorations := fun _ batch =>
      Except.ok ((List.range batch.length).map fun i => toString i)
    injectStylesOp := Except.ok ()
    setupListenersOp := Except.ok ()
    disposeListenersOp := Except.ok ()
    hasRange := true }

/-- A host identical to `goodHost` except that the decoration-replacement
call throws. -/
def badDeltaHost : Host :=
  { goodHost with deltaDecorations := fun _ _ => Except.error "delta failed" }

/-- A partial options object changing only the update delay. -/
def uDelay100 : Options := { updateDelay := some 100 }

/-- A concrete orchestrator state: enabled, not disposed, nothing pending. -/
def st0 : LensState :=
  { config := cfgAll
    isDisposed := false
    dmDecorations := []
    dmLastCount := 0
    debounceGen := 0
    debounceDelay := 300
    pending := []
    submittedBatches := []
    errorEvents := 0 }

/-! ## Theorems -/

/-- Unfolding of `formatMessage` at a supplied `maxLength`. -/
theorem formatMessage_some_def (marker : Marker) (template : String) (m : Nat) :
    formatMessage marker template (some m) =
      if 0 < m ∧ m < (formatMessage marker template none).length then
        ⟨(formatMessage marker template none).data.take (m - 3) ++ ("...").data⟩
      else formatMessage marker template none := rfl

/-- C2 (amended): for a configured `maxLength` of at least 3, `formatMessage`
returns the formatted message unchanged when its length is at or under
`maxLength`; when it is longer, the result is the first `maxLength - 3`
characters plus `"..."`, so it has length exactly `maxLength` and ends with
`"..."`.  (For `maxLength` 1 or 2 the code instead produces the 3-character
string `"..."`.) -/
theorem formatMessage_truncation (marker : Marker) (template : String)
    (m : Nat) (hm : 3 ≤ m) :
    ((formatMessage marker template none).length ≤ m →
      formatMessage marker template (some m) =
        formatMessage marker template none) ∧
    (m < (formatMessage marker template none).length →
      (formatMessage marker template (some m)).length = m ∧
      ("...").data <:+ (formatMessage marker template (some m)).data ∧
      (formatMessage marker template (some m)).data =
        (formatMessage marker template none).data.take (m - 3) ++
          ("...").data) := by
  constructor
  · intro hle
    rw [formatMessage_some_def, if_neg]
    rintro ⟨-, hlt⟩
    omega
  · intro hlt
    rw [formatMessage_some_def, if_pos ⟨by omega, hlt⟩]
    refine ⟨?_, List.suffix_append _ _, rfl⟩
    show ((formatMessage marker template none).data.take (m - 3) ++
      ("...").data).length = m
    have hdl : (formatMessage marker template none).length =
        (formatMessage marker template none).data.length := rfl
    rw [List.length_append, List.length_take]
    have h3 : (("...").data).length = 3 := rfl
    omega

/-- C2 witness: a 6-character message truncated at `maxLength = 3`. -/
theorem formatMessage_truncation_witness :
    (3 : Nat) ≤ 3 ∧
    (formatMessage { mk1 with message := "abcdef" } "{message}"
      (some 3)).length = 3 :=
  ⟨by decide,
    ((formatMessage_truncation { mk1 with message := "abcdef" } "{message}" 3
      (by decide)).2 (by decide)).1⟩

/-- C2 counterexample: with `maxLength = 2` and the 4-character message
`"abcd"`, the result is the 3-character string `"..."`, not a string of
length 2, refuting the claim for that configured `maxLength`. -/
theorem formatMessage_truncation_cex :
    formatMessage { mk1 with message := "abcd" } "{message}" (some 2) =
      "..." ∧
    (formatMessage { mk1 with message := "abcd" } "{message}"
      (some 2)).length ≠ 2 := by
  constructor
  · rfl
  · decide

/-- A string pattern with no occurrence is left unchanged by the
first-occurrence replacement. -/
theorem replaceFirstChars_no_occ (pat rep : List Char) :
    ∀ s : List Char, hasSubstr pat s = false →
      replaceFirstChars pat rep s = s := by
  intro s
  induction s with
  | nil =>
    intro h
    unfold hasSubstr at h
    have hpat : ¬pat = [] := by
      intro hp
      subst hp
      simp [List.isEmpty] at h
    simp [replaceFirstChars, hpat]
  | cons c rest ih =>
    intro h
    unfold hasSubstr at h
    rw [Bool.or_eq_false_iff] at h
    simp only [replaceFirstChars, h.1, Bool.false_eq_true, if_false,
      ih h.2]

/-- A token is a nonempty list. -/
theorem tokenLike_ne_nil {tok : List Char} (h : tokenLike tok) :
    tok ≠ [] := by
  obtain ⟨t, rfl, -⟩ := h
  simp

/-- A token has positive length. -/
theorem tokenLike_length_pos {tok : List Char} (h : tokenLike tok) :
    0 < tok.length := by
  obtain ⟨t, rfl, -⟩ := h
  simp

/-- The head character of a token is the opening brace. -/
theorem tokenLike_get_zero {tok : List Char} (h : tokenLike tok) :
    tok.get? 0 = some '{' := by
  obtain ⟨t, rfl, -⟩ := h
  rfl

/-- No later character of a token is an opening brace. -/
theorem tokenLike_get_ne {tok : List Char} (h : tokenLike tok) (k : Nat)
    (hk : 1 ≤ k) : tok.get? k ≠ some '{' := by
  obtain ⟨t, rfl, hnb⟩ := h
  intro hget
  obtain ⟨k', rfl⟩ := Nat.exists_eq_add_of_le hk
  rw [Nat.add_comm] at hget
  have hg : t.get? k' = some '{' := hget
  exact hnb (List.get?_mem hg)

/-- An occurrence of a nonempty pattern lies within the string's bounds. -/
theorem occursAt_bound {tok s : List Char} {i : Nat}
    (h : occursAt tok s i) (hne : tok ≠ []) :
    i + tok.length ≤ s.length := by
  have h' : tok <+: s.drop i := h
  have hlen : tok.length ≤ (s.drop i).length := h'.length_le
  rw [List.length_drop] at hlen
  have hpos : 0 < tok.length := List.length_pos.mpr hne
  omega

/-- Characters inside an occurrence agree with the pattern. -/
theorem occursAt_get {tok s : List Char} {i : Nat}
    (h : occursAt tok s i) (k : Nat) (hk : k < tok.length) :
    s.get? (i + k) = tok.get? k := by
  have h' : tok <+: s.drop i := h
  obtain ⟨r, hr⟩ := h'
  have h1 : (s.drop i).get? k = tok.get? k := by
    rw [← hr]
    exact List.get?_append hk
  rw [List.get?_drop] at h1
  exact h1

/-- Two token occurrences at distinct indices cannot overlap: the later
occurrence's opening brace would land inside the earlier token's tail. -/
theorem occursAt_no_overlap {pat tok s : List Char} {i j : Nat}
    (hp : tokenLike pat) (ht : tokenLike tok)
    (hi : occursAt pat s i) (hj : occursAt tok s j)
    (hlt : i < j) (hover : j < i + pat.length) : False := by
  have h1 : s.get? j = some '{' := by
    have h0 := occursAt_get hj 0 (tokenLike_length_pos ht)
    rw [Nat.add_zero] at h0
    rw [h0]
    exact tokenLike_get_zero ht
  have h2 : s.get? j = pat.get? (j - i) := by
    have h0 := occursAt_get hi (j - i) (by omega)
    rw [← h0]
    congr 1
    omega
  exact tokenLike_get_ne hp (j - i) (by omega) (h2.symm.trans h1)

/-- Occurrences of mutually non-prefix patterns never share an index. -/
theorem occursAt_ne_index {pat tok s : List Char} {i : Nat}
    (hnp : ¬ pat <+: tok) (hnt : ¬ tok <+: pat)
    (hi : occursAt pat s i) (hj : occursAt tok s i) : False := by
  have h1 : pat <+: s.drop i := hi
  have h2 : tok <+: s.drop i := hj
  rcases List.prefix_or_prefix_of_prefix h1 h2 with h | h
  · exact hnp h
  · exact hnt h

/-- Distinct token occurrences occupy disjoint segments. -/
theorem occursAt_disjoint {pat tok s : List Char} {i j : Nat}
    (hp : tokenLike pat) (ht : tokenLike tok)
    (hi : occursAt pat s i) (hj : occursAt tok s j) (hne : i ≠ j) :
    i + pat.length ≤ j ∨ j + tok.length ≤ i := by
  rcases Nat.lt_or_ge i j with hlt | hge
  · left
    by_contra hover
    exact occursAt_no_overlap hp ht hi hj hlt (by omega)
  · right
    by_contra hover
    exact occursAt_no_overlap ht hp hj hi (by omega) (by omega)

/-- The substring test certifies an occurrence index, and conversely. -/
theorem hasSubstr_iff_occursAt (pat : List Char) :
    ∀ s : List Char, hasSubstr pat s = true ↔ ∃ i, occursAt pat s i := by
  intro s
  induction s with
  | nil =>
    constructor
    · intro h
      have hpat : pat = [] := by
        cases pat with
        | nil => rfl
        | cons a l => simp [hasSubstr, List.isEmpty] at h
      subst hpat
      exact ⟨0, ⟨[], rfl⟩⟩
    · rintro ⟨i, hi⟩
      have h' : pat <+: ([] : List Char).drop i := hi
      rw [List.drop_nil] at h'
      have hpat : pat = [] := List.prefix_nil.mp h'
      subst hpat
      rfl
  | cons c rest ih =>
    constructor
    · intro h
      rw [show hasSubstr pat (c :: rest) =
          (pat.isPrefixOf (c :: rest) || hasSubstr pat rest) from rfl,
        Bool.or_eq_true] at h
      rcases h with h | h
      · refine ⟨0, ?_⟩
        show pat <+: (c :: rest).drop 0
        rw [List.drop_zero]
        exact List.isPrefixOf_iff_prefix.mp h
      · obtain ⟨i, hi⟩ := ih.mp h
        refine ⟨i + 1, ?_⟩
        show pat <+: (c :: rest).drop (i + 1)
        rw [List.drop_succ_cons]
        exact hi
    · rintro ⟨i, hi⟩
      show (pat.isPrefixOf (c :: rest) || hasSubstr pat rest) = true
      rw [Bool.or_eq_true]
      cases i with
      | zero =>
        left
        have h' : pat <+: c :: rest := by
          have h0 : pat <+: (c :: rest).drop 0 := hi
          rwa [List.drop_zero] at h0
        exact List.isPrefixOf_iff_prefix.mpr h'
      | succ i' =>
        right
        refine ih.mpr ⟨i', ?_⟩
        show pat <+: rest.drop i'
        have h0 : pat <+: (c :: rest).drop (i' + 1) := hi
        rwa [List.drop_succ_cons] at h0

/-- Every matched pattern has a least occurrence index. -/
theorem exists_min_occursAt {pat s : List Char}
    (h : hasSubstr pat s = true) :
    ∃ i, occursAt pat s i ∧ ∀ j, j < i → ¬ occursAt pat s j := by
  have hex : ∃ i, occursAt pat s i := (hasSubstr_iff_occursAt pat s).mp h
  exact ⟨Nat.find hex, Nat.find_spec hex, fun j hj => Nat.find_min hex hj⟩

/-- `replaceFirstChars` rewrites exactly the least occurrence: the text
before it and the text after it are kept verbatim. -/
theorem replaceFirstChars_eq_of_min (pat rep : List Char) :
    ∀ (s : List Char) (i : Nat), occursAt pat s i →
      (∀ j, j < i → ¬ occursAt pat s j) →
      replaceFirstChars pat rep s =
        s.take i ++ rep ++ s.drop (i + pat.length) := by
  intro s
  induction s with
  | nil =>
    intro i hi hmin
    have h' : pat <+: ([] : List Char).drop i := hi
    rw [List.drop_nil] at h'
    have hpat : pat = [] := List.prefix_nil.mp h'
    subst hpat
    simp [replaceFirstChars]
  | cons c rest ih =>
    intro i hi hmin
    cases i with
    | zero =>
      have hpre : pat.isPrefixOf (c :: rest) = true := by
        apply List.isPrefixOf_iff_prefix.mpr
        have h0 : pat <+: (c :: rest).drop 0 := hi
        rwa [List.drop_zero] at h0
      simp [replaceFirstChars, hpre]
    | succ i' =>
      have hnot : ¬ pat <+: c :: rest := by
        intro hpfx
        apply hmin 0 (Nat.succ_pos i')
        show pat <+: (c :: rest).drop 0
        rwa [List.drop_zero]
      have hpre : pat.isPrefixOf (c :: rest) = false :=
        Bool.eq_false_iff.mpr fun hpfx =>
          hnot (List.isPrefixOf_iff_prefix.mp hpfx)
      have hrest : occursAt pat rest i' := by
        show pat <+: rest.drop i'
        have h0 : pat <+: (c :: rest).drop (i' + 1) := hi
        rwa [List.drop_succ_cons] at h0
      have hminr : ∀ j, j < i' → ¬ occursAt pat rest j := by
        intro j hj hocc
        apply hmin (j + 1) (by omega)
        show pat <+: (c :: rest).drop (j + 1)
        rw [List.drop_succ_cons]
        exact hocc
      simp only [replaceFirstChars, hpre, Bool.false_eq_true, if_false,
        ih i' hrest hminr]
      have harith : i' + 1 + pat.length = i' + pat.length + 1 := by omega
      rw [harith, List.take_succ_cons, List.drop_succ_cons,
        List.cons_append, List.cons_append]

/-- A prefix that fits within the left part of an append is a prefix of
that part. -/
theorem prefix_of_append_left {a x y : List Char}
    (h : a <+: x ++ y) (hlen : a.length ≤ x.length) : a <+: x := by
  have h1 : a = (x ++ y).take a.length := List.prefix_iff_eq_take.mp h
  have h2 : (x ++ y).take a.length = x.take a.length := by
    rw [List.take_append_eq_append_take]
    have hz : a.length - x.length = 0 := by omega
    rw [hz, List.take_zero, List.append_nil]
  exact List.prefix_iff_eq_take.mpr (h1.trans h2)

/-- A token occurrence wholly before the replaced segment stays in place. -/
theorem occursAt_rewrite_before {tok s : List Char} {i j : Nat}
    (patLen : Nat) (rep : List Char) (hj : occursAt tok s j)
    (hle : j + tok.length ≤ i) (hi : i ≤ s.length) :
    occursAt tok (s.take i ++ rep ++ s.drop (i + patLen)) j := by
  have hj' : tok <+: s.drop j := hj
  have hlen : (s.take i).length = i := by
    rw [List.length_take]
    omega
  have hpre : tok <+: (s.take i).drop j := by
    rw [List.drop_take]
    obtain ⟨r, hr⟩ := hj'
    rw [← hr, List.take_append_eq_append_take]
    have htk : tok.take (i - j) = tok := List.take_of_length_le (by omega)
    rw [htk]
    exact List.prefix_append tok _
  show tok <+: (s.take i ++ rep ++ s.drop (i + patLen)).drop j
  rw [List.append_assoc, List.drop_append_eq_append_drop, hlen]
  have hji : j - i = 0 := by omega
  rw [hji, List.drop_zero]
  exact hpre.trans (List.prefix_append _ _)

/-- A token occurrence wholly after the replaced segment survives, at a
shifted index. -/
theorem occursAt_rewrite_after {tok s : List Char} {i j : Nat}
    (patLen : Nat) (rep : List Char) (hj : occursAt tok s j)
    (hge : i + patLen ≤ j) (hi : i ≤ s.length) :
    occursAt tok (s.take i ++ rep ++ s.drop (i + patLen))
      (i + rep.length + (j - (i + patLen))) := by
  have hj' : tok <+: s.drop j := hj
  have hlen : (s.take i ++ rep).length = i + rep.length := by
    rw [List.length_append, List.length_take]
    omega
  show tok <+: (s.take i ++ rep ++ s.drop (i + patLen)).drop
    (i + rep.length + (j - (i + patLen)))
  have h1 : i + rep.length + (j - (i + patLen)) =
      (s.take i ++ rep).length + (j - (i + patLen)) := by
    rw [hlen]
  rw [h1]
  have h2 : (s.take i ++ rep ++ s.drop (i + patLen)).drop
      ((s.take i ++ rep).length + (j - (i + patLen))) =
      (s.drop (i + patLen)).drop (j - (i + patLen)) := by
    rw [← List.drop_drop, List.drop_left]
  rw [h2, List.drop_drop]
  have h3 : i + patLen + (j - (i + patLen)) = j := by omega
  rw [h3]
  exact hj'

/-- With a token-free prefix, exactly the explicit occurrence is
substituted; the prefix and the suffix are kept verbatim. -/
theorem replaceFirstChars_decomp (tok rep p q : List Char)
    (ht : tokenLike tok) (hp : hasSubstr tok p = false) :
    replaceFirstChars tok rep (p ++ tok ++ q) = p ++ rep ++ q := by
  have hocc : occursAt tok (p ++ tok ++ q) p.length := by
    show tok <+: (p ++ tok ++ q).drop p.length
    rw [List.append_assoc, List.drop_left]
    exact List.prefix_append tok q
  have hmin : ∀ j, j < p.length → ¬ occursAt tok (p ++ tok ++ q) j := by
    intro j hj hocc'
    rcases occursAt_disjoint ht ht hocc' hocc (by omega) with hd | hd
    · have hin : occursAt tok p j := by
        have h1 : tok <+: (p ++ tok ++ q).drop j := hocc'
        rw [List.append_assoc, List.drop_append_eq_append_drop] at h1
        have hz : j - p.length = 0 := by omega
        rw [hz, List.drop_zero] at h1
        have hlen2 : tok.length ≤ (p.drop j).length := by
          rw [List.length_drop]
          omega
        exact prefix_of_append_left h1 hlen2
      have htr : hasSubstr tok p = true :=
        (hasSubstr_iff_occursAt tok p).mpr ⟨j, hin⟩
      rw [hp] at htr
      exact Bool.false_ne_true htr
    · omega
  rw [replaceFirstChars_eq_of_min tok rep (p ++ tok ++ q) p.length hocc hmin]
  have htake : (p ++ tok ++ q).take p.length = p := by
    rw [List.append_assoc, List.take_left]
  have hdrop : (p ++ tok ++ q).drop (p.length + tok.length) = q := by
    have h1 : p.length + tok.length = (p ++ tok).length :=
      (List.length_append p tok).symm
    rw [h1, List.drop_left]
  rw [htake, hdrop]

/-- A token-containing prefix plus an explicit occurrence gives a disjoint
pair of occurrences. -/
theorem hasTwo_of_decomp {tok p q : List Char} (ht : tokenLike tok)
    (hp : hasSubstr tok p = true) : hasTwo tok (p ++ tok ++ q) := by
  obtain ⟨j, hj⟩ := (hasSubstr_iff_occursAt tok p).mp hp
  have hbound : j + tok.length ≤ p.length :=
    occursAt_bound hj (tokenLike_ne_nil ht)
  refine ⟨j, p.length, ?_, ?_, hbound⟩
  · show tok <+: (p ++ tok ++ q).drop j
    rw [List.append_assoc, List.drop_append_eq_append_drop]
    have hz : j - p.length = 0 := by omega
    rw [hz, List.drop_zero]
    have hj' : tok <+: p.drop j := hj
    exact hj'.trans (List.prefix_append _ _)
  · show tok <+: (p ++ tok ++ q).drop p.length
    rw [List.append_assoc, List.drop_left]
    exact List.prefix_append tok q

/-- A matched token splits the string around one of its occurrences. -/
theorem hasSubstr_decomp {tok s : List Char}
    (h : hasSubstr tok s = true) : ∃ p2 q2, s = p2 ++ tok ++ q2 := by
  obtain ⟨i, hi⟩ := (hasSubstr_iff_occursAt tok s).mp h
  have hi' : tok <+: s.drop i := hi
  obtain ⟨r, hr⟩ := hi'
  refine ⟨s.take i, r, ?_⟩
  rw [List.append_assoc, hr, List.take_append_drop]

/-- Replacing the first occurrence of a different token preserves the
presence of `tok`. -/
theorem hasSubstr_replaceFirstChars_ne {pat tok : List Char}
    (rep : List Char) (hp : tokenLike pat) (ht : tokenLike tok)
    (hnp : ¬ pat <+: tok) (hnt : ¬ tok <+: pat) (s : List Char)
    (hs : hasSubstr tok s = true) :
    hasSubstr tok (replaceFirstChars pat rep s) = true := by
  cases hps : hasSubstr pat s with
  | false =>
    rw [replaceFirstChars_no_occ pat rep s hps]
    exact hs
  | true =>
    obtain ⟨i, hi, hmin⟩ := exists_min_occursAt hps
    obtain ⟨j, hj⟩ := (hasSubstr_iff_occursAt tok s).mp hs
    rw [replaceFirstChars_eq_of_min pat rep s i hi hmin]
    have hibound : i ≤ s.length := by
      have := occursAt_bound hi (tokenLike_ne_nil hp)
      omega
    have hne : i ≠ j := by
      intro h
      exact occursAt_ne_index hnp hnt hi (by rw [h]; exact hj)
    rcases occursAt_disjoint hp ht hi hj hne with hd | hd
    · exact (hasSubstr_iff_occursAt tok _).mpr
        ⟨_, occursAt_rewrite_after pat.length rep hj hd hibound⟩
    · exact (hasSubstr_iff_occursAt tok _).mpr
        ⟨j, occursAt_rewrite_before pat.length rep hj hd hibound⟩

/-- Replacing the first occurrence of a different token keeps a disjoint
pair of `tok` occurrences. -/
theorem hasTwo_replaceFirstChars_ne {pat tok : List Char}
    (rep : List Char) (hp : tokenLike pat) (ht : tokenLike tok)
    (hnp : ¬ pat <+: tok) (hnt : ¬ tok <+: pat) (s : List Char)
    (hs : hasTwo tok s) : hasTwo tok (replaceFirstChars pat rep s) := by
  obtain ⟨j1, j2, hj1, hj2, hgap⟩ := hs
  cases hps : hasSubstr pat s with
  | false =>
    rw [replaceFirstChars_no_occ pat rep s hps]
    exact ⟨j1, j2, hj1, hj2, hgap⟩
  | true =>
    obtain ⟨i, hi, hmin⟩ := exists_min_occursAt hps
    rw [replaceFirstChars_eq_of_min pat rep s i hi hmin]
    have hibound : i ≤ s.length := by
      have := occursAt_bound hi (tokenLike_ne_nil hp)
      omega
    have hne1 : i ≠ j1 := by
      intro h
      exact occursAt_ne_index hnp hnt hi (by rw [h]; exact hj1)
    have hne2 : i ≠ j2 := by
      intro h
      exact occursAt_ne_index hnp hnt hi (by rw [h]; exact hj2)
    have hpatpos : 0 < pat.length := tokenLike_length_pos hp
    have htokpos : 0 < tok.length := tokenLike_length_pos ht
    rcases occursAt_disjoint hp ht hi hj1 hne1 with hd1 | hd1
    · have hd2 : i + pat.length ≤ j2 := by omega
      exact ⟨i + rep.length + (j1 - (i + pat.length)),
        i + rep.length + (j2 - (i + pat.length)),
        occursAt_rewrite_after pat.length rep hj1 hd1 hibound,
        occursAt_rewrite_after pat.length rep hj2 hd2 hibound, by omega⟩
    · rcases occursAt_disjoint hp ht hi hj2 hne2 with hd2 | hd2
      · exact ⟨j1, i + rep.length + (j2 - (i + pat.length)),
          occursAt_rewrite_before pat.length rep hj1 hd1 hibound,
          occursAt_rewrite_after pat.length rep hj2 hd2 hibound, by omega⟩
      · exact ⟨j1, j2,
          occursAt_rewrite_before pat.length rep hj1 hd1 hibound,
          occursAt_rewrite_before pat.length rep hj2 hd2 hibound, hgap⟩

/-- Replacing the first occurrence of `tok` itself leaves a later disjoint
occurrence in place. -/
theorem hasSubstr_replaceFirstChars_self {tok : List Char}
    (rep : List Char) (ht : tokenLike tok) (s : List Char)
    (hs : hasTwo tok s) :
    hasSubstr tok (replaceFirstChars tok rep s) = true := by
  obtain ⟨j1, j2, hj1, hj2, hgap⟩ := hs
  have hsub : hasSubstr tok s = true :=
    (hasSubstr_iff_occursAt tok s).mpr ⟨j1, hj1⟩
  obtain ⟨i, hi, hmin⟩ := exists_min_occursAt hsub
  rw [replaceFirstChars_eq_of_min tok rep s i hi hmin]
  have htokpos : 0 < tok.length := tokenLike_length_pos ht
  have hibound : i ≤ s.length := by
    have := occursAt_bound hi (tokenLike_ne_nil ht)
    omega
  have hile : i ≤ j1 := by
    by_contra hlt
    exact hmin j1 (by omega) hj1
  have hne : i ≠ j2 := by omega
  rcases occursAt_disjoint ht ht hi hj2 hne with hd | hd
  · exact (hasSubstr_iff_occursAt tok _).mpr
      ⟨_, occursAt_rewrite_after tok.length rep hj2 hd hibound⟩
  · exact absurd hd (by omega)

/-- The three substitution tokens are brace-headed with brace-free tails. -/
theorem tokenLike_tokens :
    tokenLike (("{message}").data) ∧ tokenLike (("{source}").data) ∧
      tokenLike (("{code}").data) :=
  ⟨⟨("message\x7d").data, rfl, by decide⟩,
    ⟨("source\x7d").data, rfl, by decide⟩,
    ⟨("code\x7d").data, rfl, by decide⟩⟩

/-- Later-occurrence survival of each token through the three-step
substitution chain of `formatMessage`. -/
theorem hasSubstr_formatMessage (marker : Marker) (template T : String)
    (hT : T = "{message}" ∨ T = "{source}" ∨ T = "{code}")
    (htwo : hasTwo T.data template.data) :
    hasSubstr T.data (formatMessage marker template none).data = true := by
  obtain ⟨tm, ts, tc⟩ := tokenLike_tokens
  have hdata : (formatMessage marker template none).data =
      replaceFirstChars (("{code}").data)
        ((if jsTruthy marker.code then marker.code.getD "" else "").data)
        (replaceFirstChars (("{source}").data) ((marker.source.getD "").data)
          (replaceFirstChars (("{message}").data) (marker.message.data)
            template.data)) := rfl
  rw [hdata]
  rcases hT with rfl | rfl | rfl
  · apply hasSubstr_replaceFirstChars_ne _ tc tm (by decide) (by decide)
    apply hasSubstr_replaceFirstChars_ne _ ts tm (by decide) (by decide)
    exact hasSubstr_replaceFirstChars_self _ tm _ htwo
  · apply hasSubstr_replaceFirstChars_ne _ tc ts (by decide) (by decide)
    apply hasSubstr_replaceFirstChars_self _ ts
    exact hasTwo_replaceFirstChars_ne _ tm ts (by decide) (by decide) _ htwo
  · apply hasSubstr_replaceFirstChars_self _ tc
    apply hasTwo_replaceFirstChars_ne _ ts tc (by decide) (by decide)
    exact hasTwo_replaceFirstChars_ne _ tm tc (by decide) (by decide) _ htwo

/-- C10: `formatMessage` substitutes only the first occurrence of each of
the tokens `{message}`, `{source}` and `{code}`.  First part: a single
substitution step rewrites exactly the first occurrence of its token,
keeping the text before and after it (hence every later occurrence of the
token) verbatim.  Second part: for every marker and every template in which
a token occurs again after an earlier occurrence, the later occurrence of
that token remains literally in `formatMessage`'s output. -/
theorem formatMessage_first_occurrence :
    (∀ tok rep p q : List Char,
      (tok = ("{message}").data ∨ tok = ("{source}").data ∨
        tok = ("{code}").data) →
      hasSubstr tok p = false →
      replaceFirstChars tok rep (p ++ tok ++ q) = p ++ rep ++ q) ∧
    (∀ (marker : Marker) (template T : String) (p q : List Char),
      (T = "{message}" ∨ T = "{source}" ∨ T = "{code}") →
      template.data = p ++ T.data ++ q →
      hasSubstr T.data p = true →
      ∃ p2 q2, (formatMessage marker template none).data =
        p2 ++ T.data ++ q2) := by
  obtain ⟨tm, ts, tc⟩ := tokenLike_tokens
  constructor
  · intro tok rep p q htok hp
    have ht : tokenLike tok := by
      rcases htok with rfl | rfl | rfl
      exacts [tm, ts, tc]
    exact replaceFirstChars_decomp tok rep p q ht hp
  · intro marker template T p q hT hdec hp
    have ht : tokenLike T.data := by
      rcases hT with rfl | rfl | rfl
      exacts [tm, ts, tc]
    have htwo : hasTwo T.data template.data := by
      rw [hdec]
      exact hasTwo_of_decomp ht hp
    exact hasSubstr_decomp (hasSubstr_formatMessage marker template T hT htwo)

/-- C10 witness: the single-step substitution rewrites exactly the first
`{message}` of a concrete two-occurrence string, and at a concrete marker
the later `{message}` of the template `"{message} {message}"` survives
literally into the output. -/
theorem formatMessage_first_occurrence_witness :
    replaceFirstChars (("{message}").data) (("x").data)
        ((("ab ").data) ++ (("{message}").data) ++ ((" {message}").data)) =
      (("ab ").data) ++ (("x").data) ++ ((" {message}").data) ∧
    ∃ p2 q2, (formatMessage wMarker "{message} {message}" none).data =
      p2 ++ (("{message}").data) ++ q2 :=
  ⟨formatMessage_first_occurrence.1 (("{message}").data) (("x").data)
      (("ab ").data) ((" {message}").data) (Or.inl rfl) (by decide),
    formatMessage_first_occurrence.2 wMarker "{message} {message}"
      "{message}" (("{message} ").data) [] (Or.inl rfl) (by decide)
      (by decide)⟩

/-- Two markers with the same `(line, severity)` key are mutually `markerLE`. -/
theorem markerLE_of_key_eq {a b : Marker}
    (hl : a.startLineNumber = b.startLineNumber)
    (hs : a.severity = b.severity) : markerLE a b :=
  Or.inr ⟨hl, hs ▸ Nat.le_refl _⟩

/-- Inserting a marker leaves the sublist of any fixed `(line, severity)`
key intact, except that a marker of that very key lands at its front. -/
theorem filter_key_orderedInsert (lk sk : Nat) (a : Marker)
    (l : List Marker) :
    (List.orderedInsert markerLE a l).filter
        (fun m => m.startLineNumber == lk && m.severity == sk) =
      (if a.startLineNumber == lk && a.severity == sk then [a] else []) ++
        l.filter (fun m => m.startLineNumber == lk && m.severity == sk) := by
  rw [List.orderedInsert_eq_take_drop]
  rw [List.filter_append]
  by_cases hak : (a.startLineNumber == lk && a.severity == sk) = true
  · rw [if_pos hak]
    have ha1 : a.startLineNumber = lk :=
      beq_iff_eq.mp ((Bool.and_eq_true _ _).mp hak).1
    have ha2 : a.severity = sk :=
      beq_iff_eq.mp ((Bool.and_eq_true _ _).mp hak).2
    have htw : (l.takeWhile fun b => decide ¬markerLE a b).filter
        (fun m => m.startLineNumber == lk && m.severity == sk) = [] := by
      rw [List.filter_eq_nil_iff]
      intro b hb
      have hnb : ¬markerLE a b := by
        simpa using List.mem_takeWhile_imp hb
      intro hbk
      have hb1 : b.startLineNumber = lk :=
        beq_iff_eq.mp ((Bool.and_eq_true _ _).mp hbk).1
      have hb2 : b.severity = sk :=
        beq_iff_eq.mp ((Bool.and_eq_true _ _).mp hbk).2
      exact hnb (markerLE_of_key_eq (ha1.trans hb1.symm) (ha2.trans hb2.symm))
    rw [htw, List.filter_cons, if_pos hak]
    conv_rhs => rw [← List.takeWhile_append_dropWhile
      (fun b => decide ¬markerLE a b) l]
    rw [List.filter_append, htw]
    simp
  · rw [if_neg hak]
    rw [List.filter_cons, if_neg hak]
    conv_rhs => rw [← List.takeWhile_append_dropWhile
      (fun b => decide ¬markerLE a b) l]
    rw [List.filter_append]
    simp

/-- Stability of `sortMarkers` at one `(line, severity)` key. -/
theorem filter_key_sortMarkers (lk sk : Nat) :
    ∀ ms : List Marker,
      (sortMarkers ms).filter
          (fun m => m.startLineNumber == lk && m.severity == sk) =
        ms.filter (fun m => m.startLineNumber == lk && m.severity == sk) := by
  intro ms
  induction ms with
  | nil => rfl
  | cons x xs ih =>
    show (List.orderedInsert markerLE x
      (List.insertionSort markerLE xs)).filter _ = _
    rw [filter_key_orderedInsert]
    rw [show List.insertionSort markerLE xs = sortMarkers xs from rfl, ih]
    rw [List.filter_cons]
    by_cases hx : (x.startLineNumber == lk && x.severity == sk) = true
    · simp [hx]
    · simp [hx]

/-- C4: `sortMarkers` returns a permutation of its input whose line numbers
are non-decreasing and whose severities are non-increasing within equal
lines (that is exactly `markerLE` pairwise), and markers with equal
`(line, severity)` pairs keep their relative input order: the sublist at
each fixed key is unchanged. -/
theorem sortMarkers_sorts (ms : List Marker) :
    List.Perm (sortMarkers ms) ms ∧
    List.Pairwise markerLE (sortMarkers ms) ∧
    ∀ lk sk : Nat,
      (sortMarkers ms).filter
          (fun m => m.startLineNumber == lk && m.severity == sk) =
        ms.filter (fun m => m.startLineNumber == lk && m.severity == sk) :=
  ⟨List.perm_insertionSort markerLE ms,
    List.sorted_insertionSort markerLE ms,
    fun lk sk => filter_key_sortMarkers lk sk ms⟩

/-- C1 counterexample: with cursor-follow mode `activeLine` and no cursor
position, the filtering pass retains the marker on line 1 (the claim says
it retains nothing). -/
theorem filterMarkers_no_cursor_cex :
    filterMarkers cfgActive none [mk1] = [mk1] ∧ ([mk1] : List Marker) ≠ [] := by
  constructor
  · rfl
  · decide

/-- C1 (amended): in cursor-follow mode `activeLine`, with a (truthy)
cursor position available the cursor pass retains exactly the markers whose
start line equals the cursor line; with no cursor position available the
pass is skipped and every marker survives it unchanged, so the whole
filtering pipeline behaves as if following the cursor were off (rather
than retaining nothing). -/
theorem filterMarkers_activeLine (cfg : Config)
    (h : cfg.followCursor = FollowCursor.activeLine) (ms : List Marker) :
    (cursorFilterStep cfg none ms = ms) ∧
    (∀ c : Nat, c ≠ 0 → cursorFilterStep cfg (some c) ms =
      ms.filter fun m => m.startLineNumber == c) ∧
    (filterMarkers cfg none ms =
      perLineCapStep cfg (sortMarkers (severityFilterStep cfg ms))) := by
  refine ⟨?_, ?_, ?_⟩
  · simp [cursorFilterStep, h]
  · intro c hc
    simp [cursorFilterStep, h, hc]
  · show perLineCapStep cfg (cursorFilterStep cfg none
      (sortMarkers (severityFilterStep cfg ms))) = _
    rw [show cursorFilterStep cfg none
      (sortMarkers (severityFilterStep cfg ms)) =
        sortMarkers (severityFilterStep cfg ms) by simp [cursorFilterStep, h]]

/-- C1 witness: concrete instance of the amended behaviour, cursor at
line 3 with markers on lines 1 and 3. -/
theorem filterMarkers_activeLine_witness :
    cfgActive.followCursor = FollowCursor.activeLine ∧
    cursorFilterStep cfgActive (some 3) [mk1, mk3] = [mk3] := by
  refine ⟨by decide, ?_⟩
  rw [(filterMarkers_activeLine cfgActive (by decide) [mk1, mk3]).2.1 3
    (by decide)]
  decide

/-- `groupInsert` keeps the key list when the key is present, otherwise
appends the new key at the end. -/
theorem keys_groupInsert (acc : List (Nat × List Marker)) (m : Marker) :
    (groupInsert acc m).map Prod.fst =
      if (acc.map Prod.fst).contains m.startLineNumber then
        acc.map Prod.fst
      else acc.map Prod.fst ++ [m.startLineNumber] := by
  unfold groupInsert
  by_cases h : ((acc.map Prod.fst).contains m.startLineNumber) = true
  · rw [if_pos h, if_pos h, List.map_map]
    apply List.map_congr_left
    intro e _
    by_cases he : e.1 = m.startLineNumber
    · simp [he]
    · simp [he]
  · rw [if_neg h, if_neg h]
    simp

/-- `groupInsert` keeps the keys duplicate-free. -/
theorem keys_nodup_groupInsert (acc : List (Nat × List Marker)) (m : Marker)
    (h : (acc.map Prod.fst).Nodup) :
    ((groupInsert acc m).map Prod.fst).Nodup := by
  rw [keys_groupInsert]
  by_cases hc : ((acc.map Prod.fst).contains m.startLineNumber) = true
  · rwa [if_pos hc]
  · rw [if_neg hc]
    have hnm : m.startLineNumber ∉ acc.map Prod.fst := by simpa using hc
    simp [List.nodup_append, h, hnm]

/-- Key membership after one `groupInsert`. -/
theorem mem_keys_groupInsert (acc : List (Nat × List Marker)) (m : Marker)
    (k : Nat) :
    k ∈ (groupInsert acc m).map Prod.fst ↔
      k ∈ acc.map Prod.fst ∨ k = m.startLineNumber := by
  rw [keys_groupInsert]
  by_cases hc : ((acc.map Prod.fst).contains m.startLineNumber) = true
  · rw [if_pos hc]
    constructor
    · exact Or.inl
    · rintro (h | rfl)
      · exact h
      · simpa using hc
  · rw [if_neg hc]
    simp

/-- Effect of one `groupInsert` on one line's group. -/
theorem lookupGroup_groupInsert (acc : List (Nat × List Marker)) (m : Marker)
    (k : Nat) :
    lookupGroup k (groupInsert acc m) =
      lookupGroup k acc ++
        (if m.startLineNumber == k then [m] else []) := by
  unfold groupInsert lookupGroup
  by_cases hc : ((acc.map Prod.fst).contains m.startLineNumber) = true
  · rw [if_pos hc]
    rw [List.find?_map]
    have hpe : ((fun e : Nat × List Marker => e.1 == k) ∘
        (fun e : Nat × List Marker =>
          if e.1 == m.startLineNumber then (e.1, e.2 ++ [m]) else e)) =
        fun e : Nat × List Marker => e.1 == k := by
      funext e
      by_cases he : (e.1 == m.startLineNumber) = true
      · simp [Function.comp, he]
      · simp [Function.comp, he]
    rw [hpe]
    by_cases hmk : (m.startLineNumber == k) = true
    · have hk : m.startLineNumber = k := beq_iff_eq.mp hmk
      have hsome : (acc.find? fun e : Nat × List Marker => e.1 == k).isSome := by
        rw [List.find?_isSome]
        have : m.startLineNumber ∈ acc.map Prod.fst := by simpa using hc
        obtain ⟨e, he, hfst⟩ := List.mem_map.mp this
        exact ⟨e, he, by rw [beq_iff_eq, hfst, hk]⟩
      obtain ⟨e, he⟩ := Option.isSome_iff_exists.mp hsome
      rw [he]
      have hek : (e.1 == k) = true := by simpa using List.find?_some he
      have hem : (e.1 == m.startLineNumber) = true := by
        rw [beq_iff_eq] at hek ⊢
        rw [hek, hk]
      rw [if_pos hmk]
      have hem2 : e.1 = m.startLineNumber := beq_iff_eq.mp hem
      simp [hem2]
    · cases hfe : acc.find? fun e : Nat × List Marker => e.1 == k with
      | none =>
        rw [if_neg hmk]
        simp [hfe]
      | some e =>
        have hek : (e.1 == k) = true := by simpa using List.find?_some hfe
        have hne : e.1 ≠ m.startLineNumber := by
          intro hEq
          apply hmk
          rw [beq_iff_eq] at hek ⊢
          rw [← hEq, hek]
        have hmk2 : ¬m.startLineNumber = k := by simpa using hmk
        simp [hfe, hne, hmk2]
  · rw [if_neg hc]
    rw [List.find?_append]
    by_cases hmk : (m.startLineNumber == k) = true
    · have hk : m.startLineNumber = k := beq_iff_eq.mp hmk
      have hnone : (acc.find? fun e : Nat × List Marker => e.1 == k) = none := by
        rw [List.find?_eq_none]
        intro e hee hbe
        have : m.startLineNumber ∉ acc.map Prod.fst := by simpa using hc
        apply this
        have : e.1 = m.startLineNumber := by
          rw [beq_iff_eq] at hbe
          rw [hbe, hk]
        exact this ▸ List.mem_map_of_mem Prod.fst hee
      rw [hnone]
      simp [List.find?, hmk]
    · cases hfe : acc.find? fun e : Nat × List Marker => e.1 == k with
      | none => simp [List.find?, hmk]
      | some e => simp [List.find?, hmk]

/-- In a grouping with duplicate-free keys, every entry is its own key's
lookup. -/
theorem lookupGroup_eq_of_mem :
    ∀ (g : List (Nat × List Marker)), (g.map Prod.fst).Nodup →
      ∀ e ∈ g, lookupGroup e.1 g = e.2 := by
  intro g
  induction g with
  | nil => simp
  | cons hd t ih =>
    intro hnd e he
    rw [List.map_cons] at hnd
    have hnd1 : hd.1 ∉ t.map Prod.fst := (List.nodup_cons.mp hnd).1
    have hnd2 : (t.map Prod.fst).Nodup := (List.nodup_cons.mp hnd).2
    rcases List.mem_cons.mp he with rfl | het
    · unfold lookupGroup
      rw [List.find?_cons_of_pos _ (by simp)]
      rfl
    · have hne : ¬(hd.1 == e.1) = true := by
        rw [beq_iff_eq]
        intro hEq
        exact hnd1 (hEq ▸ List.mem_map_of_mem Prod.fst het)
      unfold lookupGroup
      rw [List.find?_cons_of_neg (p := fun x : Nat × List Marker => x.1 == e.1) _ hne]
      exact ih hnd2 e het

/-- Keys stay duplicate-free along the whole grouping fold. -/
theorem keys_nodup_foldl :
    ∀ (xs : List Marker) (acc : List (Nat × List Marker)),
      (acc.map Prod.fst).Nodup →
      ((xs.foldl groupInsert acc).map Prod.fst).Nodup := by
  intro xs
  induction xs with
  | nil => exact fun acc h => h
  | cons x xs ih => exact fun acc h => ih _ (keys_nodup_groupInsert acc x h)

/-- Key membership along the whole grouping fold. -/
theorem mem_keys_foldl :
    ∀ (xs : List Marker) (acc : List (Nat × List Marker)) (k : Nat),
      (k ∈ (xs.foldl groupInsert acc).map Prod.fst ↔
        k ∈ acc.map Prod.fst ∨ k ∈ xs.map (·.startLineNumber)) := by
  intro xs
  induction xs with
  | nil => simp
  | cons x xs ih =>
    intro acc k
    rw [List.foldl_cons, ih, mem_keys_groupInsert]
    simp [or_assoc, or_comm, or_left_comm]

/-- Each line's group along the whole grouping fold collects exactly that
line's markers, in input order. -/
theorem lookupGroup_foldl :
    ∀ (xs : List Marker) (acc : List (Nat × List Marker)) (k : Nat),
      lookupGroup k (xs.foldl groupInsert acc) =
        lookupGroup k acc ++ xs.filter (fun m => m.startLineNumber == k) := by
  intro xs
  induction xs with
  | nil => simp
  | cons x xs ih =>
    intro acc k
    rw [List.foldl_cons, ih, lookupGroup_groupInsert, List.filter_cons]
    by_cases hx : (x.startLineNumber == k) = true
    · rw [if_pos hx, if_pos hx, List.append_assoc]
      rfl
    · rw [if_neg hx, if_neg hx, List.append_nil]

/-- `groupMarkersByLine` has duplicate-free keys. -/
theorem groupMarkersByLine_keys_nodup (xs : List Marker) :
    ((groupMarkersByLine xs).map Prod.fst).Nodup :=
  keys_nodup_foldl xs [] (by simp)

/-- The keys of `groupMarkersByLine` are exactly the start lines present. -/
theorem mem_keys_groupMarkersByLine (xs : List Marker) (k : Nat) :
    k ∈ (groupMarkersByLine xs).map Prod.fst ↔
      k ∈ xs.map (·.startLineNumber) := by
  unfold groupMarkersByLine
  rw [mem_keys_foldl]
  simp

/-- The group of line `k` is the sublist of markers starting on line `k`. -/
theorem lookupGroup_groupMarkersByLine (xs : List Marker) (k : Nat) :
    lookupGroup k (groupMarkersByLine xs) =
      xs.filter (fun m => m.startLineNumber == k) := by
  unfold groupMarkersByLine
  rw [lookupGroup_foldl]
  rfl

/-- Every entry of `groupMarkersByLine` is its line's marker sublist. -/
theorem entry_groupMarkersByLine (xs : List Marker) :
    ∀ e ∈ groupMarkersByLine xs,
      e.2 = xs.filter (fun m => m.startLineNumber == e.1) := by
  intro e he
  rw [← lookupGroup_groupMarkersByLine xs e.1]
  exact (lookupGroup_eq_of_mem _ (groupMarkersByLine_keys_nodup xs) e he).symm

/-- A mapped flatten over entries that vanish off one key is empty when no
entry carries that key. -/
theorem flatten_map_eq_nil {β : Type} (l : Nat)
    (f : Nat × List Marker → List β) :
    ∀ gs : List (Nat × List Marker),
      (∀ e ∈ gs, e.1 ≠ l → f e = []) → l ∉ gs.map Prod.fst →
      (gs.map f).flatten = [] := by
  intro gs
  induction gs with
  | nil => simp
  | cons hd t ih =>
    intro hz hnl
    rw [List.map_cons] at hnl
    have h1 : hd.1 ≠ l := fun hEq => hnl (by rw [← hEq]; exact List.mem_cons_self _ _)
    have h2 : l ∉ t.map Prod.fst := fun hl => hnl (List.mem_cons_of_mem _ hl)
    rw [List.map_cons, List.flatten_cons]
    rw [hz hd (List.mem_cons_self _ _) h1, List.nil_append]
    exact ih (fun e he hne => hz e (List.mem_cons_of_mem _ he) hne) h2

/-- A mapped flatten over entries that vanish off one key reduces to the
unique entry carrying that key. -/
theorem flatten_map_eq_single {β : Type} (l : Nat)
    (f : Nat × List Marker → List β) :
    ∀ gs : List (Nat × List Marker), (gs.map Prod.fst).Nodup →
      (∀ e ∈ gs, e.1 ≠ l → f e = []) →
      ∀ e0 ∈ gs, e0.1 = l → (gs.map f).flatten = f e0 := by
  intro gs
  induction gs with
  | nil => simp
  | cons hd t ih =>
    intro hnd hz e0 he0 hl
    rw [List.map_cons] at hnd
    have hnd1 : hd.1 ∉ t.map Prod.fst := (List.nodup_cons.mp hnd).1
    have hnd2 : (t.map Prod.fst).Nodup := (List.nodup_cons.mp hnd).2
    rw [List.map_cons, List.flatten_cons]
    rcases List.mem_cons.mp he0 with rfl | het
    · have htail : (t.map f).flatten = [] := by
        apply flatten_map_eq_nil l f t
        · intro e he hne
          exact hz e (List.mem_cons_of_mem _ he) hne
        · exact hl ▸ hnd1
      rw [htail, List.append_nil]
    · have h1 : hd.1 ≠ l := by
        intro hEq
        apply hnd1
        rw [hEq, ← hl]
        exact List.mem_map_of_mem Prod.fst het
      rw [hz hd (List.mem_cons_self _ _) h1, List.nil_append]
      exact ih hnd2 (fun e he hne => hz e (List.mem_cons_of_mem _ he) hne)
        e0 het hl

/-- The capped rebuild keeps, on each line, exactly the first `N` markers
of that line's (input-ordered) group. -/
theorem capStep_filter (N l : Nat) (xs : List Marker) :
    (((groupMarkersByLine xs).map fun e => e.2.take N).flatten).filter
        (fun m => m.startLineNumber == l) =
      (xs.filter (fun m => m.startLineNumber == l)).take N := by
  rw [List.filter_flatten, List.map_map]
  have hz : ∀ e ∈ groupMarkersByLine xs, e.1 ≠ l →
      ((List.filter (fun m => m.startLineNumber == l)) ∘
        fun e : Nat × List Marker => e.2.take N) e = [] := by
    intro e he hne
    show (e.2.take N).filter (fun m => m.startLineNumber == l) = []
    rw [List.filter_eq_nil_iff]
    intro m hm hml
    apply hne
    have hm2 : m ∈ e.2 := List.take_subset N e.2 hm
    rw [entry_groupMarkersByLine xs e he] at hm2
    have hthis := (List.mem_filter.mp hm2).2
    rw [beq_iff_eq] at hthis hml
    rw [← hthis, hml]
  by_cases hkey : l ∈ (groupMarkersByLine xs).map Prod.fst
  · obtain ⟨e0, he0, hfst⟩ := List.mem_map.mp hkey
    rw [flatten_map_eq_single l _ (groupMarkersByLine xs)
      (groupMarkersByLine_keys_nodup xs) hz e0 he0 hfst]
    show (e0.2.take N).filter (fun m => m.startLineNumber == l) = _
    have hself : (e0.2.take N).filter (fun m => m.startLineNumber == l) =
        e0.2.take N := by
      rw [List.filter_eq_self]
      intro m hm
      have hm2 : m ∈ e0.2 := List.take_subset N e0.2 hm
      rw [entry_groupMarkersByLine xs e0 he0] at hm2
      have hthis := (List.mem_filter.mp hm2).2
      rw [beq_iff_eq] at hthis ⊢
      rw [hthis, hfst]
    rw [hself, entry_groupMarkersByLine xs e0 he0, hfst]
  · rw [flatten_map_eq_nil l _ (groupMarkersByLine xs) hz hkey]
    have hemp : xs.filter (fun m => m.startLineNumber == l) = [] := by
      rw [List.filter_eq_nil_iff]
      intro m hm hml
      apply hkey
      rw [mem_keys_groupMarkersByLine]
      exact List.mem_map.mpr ⟨m, hm, beq_iff_eq.mp hml⟩
    rw [hemp, List.take_nil]

/-- The cursor pass is a sublist pass. -/
theorem cursorFilterStep_sublist (cfg : Config) (cursorLine : Option Nat)
    (ms : List Marker) :
    List.Sublist (cursorFilterStep cfg cursorLine ms) ms := by
  unfold cursorFilterStep
  by_cases h : cfg.followCursor = FollowCursor.activeLine
  · rw [if_pos h]
    cases cursorLine with
    | none => exact List.Sublist.refl ms
    | some c =>
      show (if (c == 0) = true then ms
        else ms.filter fun marker => marker.startLineNumber == c).Sublist ms
      by_cases hc : (c == 0) = true
      · rw [if_pos hc]
      · rw [if_neg hc]
        exact List.filter_sublist ms
  · rw [if_neg h]

/-- C3: with a positive per-line cap `N`, the filtering pass leaves each
line with at most `N` markers, namely the first `N` entries of that line's
severity-sorted group — and since that group is sorted by non-increasing
severity, they are the `N` highest-severity markers on the line, in the
sorted order. -/
theorem filterMarkers_cap (cfg : Config) (cursorLine : Option Nat)
    (ms : List Marker) (l : Nat) (hcap : 0 < cfg.maxMarkersPerLine) :
    ((filterMarkers cfg cursorLine ms).filter
        (fun m => m.startLineNumber == l) =
      ((cursorFilterStep cfg cursorLine
          (sortMarkers (severityFilterStep cfg ms))).filter
        (fun m => m.startLineNumber == l)).take cfg.maxMarkersPerLine) ∧
    (((filterMarkers cfg cursorLine ms).filter
        (fun m => m.startLineNumber == l)).length ≤ cfg.maxMarkersPerLine) ∧
    List.Pairwise (fun a b => b.severity ≤ a.severity)
      ((cursorFilterStep cfg cursorLine
          (sortMarkers (severityFilterStep cfg ms))).filter
        (fun m => m.startLineNumber == l)) := by
  have h1 : filterMarkers cfg cursorLine ms =
      ((groupMarkersByLine (cursorFilterStep cfg cursorLine
        (sortMarkers (severityFilterStep cfg ms)))).map
          fun e => e.2.take cfg.maxMarkersPerLine).flatten := by
    show perLineCapStep cfg _ = _
    unfold perLineCapStep
    rw [if_pos hcap]
  have hmain := capStep_filter cfg.maxMarkersPerLine l
    (cursorFilterStep cfg cursorLine (sortMarkers (severityFilterStep cfg ms)))
  refine ⟨?_, ?_, ?_⟩
  · rw [h1]
    exact hmain
  · rw [h1, hmain]
    exact List.length_take_le _ _
  · have hs : List.Pairwise markerLE
        (sortMarkers (severityFilterStep cfg ms)) :=
      List.sorted_insertionSort markerLE (severityFilterStep cfg ms)
    have hp : List.Pairwise markerLE
        (cursorFilterStep cfg cursorLine
          (sortMarkers (severityFilterStep cfg ms))) :=
      hs.sublist (cursorFilterStep_sublist cfg cursorLine _)
    have hpf : List.Pairwise markerLE
        ((cursorFilterStep cfg cursorLine
          (sortMarkers (severityFilterStep cfg ms))).filter
            (fun m => m.startLineNumber == l)) :=
      hp.sublist (List.filter_sublist _)
    apply hpf.imp_of_mem
    intro a b ha hb hab
    have hal : a.startLineNumber = l :=
      beq_iff_eq.mp (List.mem_filter.mp ha).2
    have hbl : b.startLineNumber = l :=
      beq_iff_eq.mp (List.mem_filter.mp hb).2
    rcases hab with hlt | ⟨-, hle⟩
    · rw [hal, hbl] at hlt
      exact absurd hlt (Nat.lt_irrefl l)
    · exact hle

/-- C3 witness: cap 1, two markers on line 1 — only the error survives. -/
theorem filterMarkers_cap_witness :
    0 < cfgCap1.maxMarkersPerLine ∧
    (filterMarkers cfgCap1 none [mk2, mk1]).filter
      (fun m => m.startLineNumber == 1) = [mk1] := by
  refine ⟨by decide, ?_⟩
  rw [(filterMarkers_cap cfgCap1 none [mk2, mk1] 1 (by decide)).1]
  decide

/-- A push-style fold is the flatten of the per-element contributions. -/
theorem foldl_append_flatten {α β : Type} (g : α → List β) :
    ∀ (l : List α) (acc : List β),
      l.foldl (fun ds e => ds ++ g e) acc = acc ++ (l.map g).flatten := by
  intro l
  induction l with
  | nil => simp
  | cons x xs ih =>
    intro acc
    rw [List.foldl_cons, ih, List.map_cons, List.flatten_cons,
      List.append_assoc]

/-- `dmGroupMarkersByLine` is the shared grouping fold with each group
sorted by descending severity. -/
theorem dmGroup_eq (xs : List Marker) :
    dmGroupMarkersByLine xs =
      (groupMarkersByLine xs).map fun e => (e.1, e.2.insertionSort sevGE) :=
  rfl

/-- The keys of `dmGroupMarkersByLine` coincide with the ungrouped keys. -/
theorem dmGroup_keys (xs : List Marker) :
    (dmGroupMarkersByLine xs).map Prod.fst =
      (groupMarkersByLine xs).map Prod.fst := by
  rw [dmGroup_eq, List.map_map]
  rfl

/-- `createDecorations` as a flatten over the sorted line groups. -/
theorem createDecorations_eq (cfg : Config) (hasRange : Bool)
    (xs : List Marker) :
    createDecorations cfg hasRange xs =
      ((dmGroupMarkersByLine xs).map fun e =>
        match e.2.head? with
        | none => []
        | some _ => (createLineDecoration cfg hasRange e.1 e.2).toList).flatten := by
  unfold createDecorations
  have hfun : (fun (decorations : List Decoration) (e : Nat × List Marker) =>
      match e.2.head? with
      | none => decorations
      | some _ =>
        match createLineDecoration cfg hasRange e.1 e.2 with
        | some decoration => decorations ++ [decoration]
        | none => decorations) =
      fun ds e => ds ++
        (match e.2.head? with
        | none => ([] : List Decoration)
        | some _ => (createLineDecoration cfg hasRange e.1 e.2).toList) := by
    funext ds e
    cases e.2.head? with
    | none => simp
    | some pm =>
      cases createLineDecoration cfg hasRange e.1 e.2 with
      | none => simp [Option.toList]
      | some d => simp [Option.toList]
  rw [hfun, foldl_append_flatten, List.nil_append]

/-- With the `Range` constructor available, a non-empty group always yields
one decoration anchored at its line; when line highlights are on, its class
is the primary (first) marker's severity class. -/
theorem createLineDecoration_props (cfg : Config) (line : Nat)
    (mkrs : List Marker) (pm : Marker) (h : mkrs.head? = some pm) :
    ∃ d, createLineDecoration cfg true line mkrs = some d ∧
      d.range.startLineNumber = line ∧
      (cfg.enableLineHighlights = true →
        d.options.className =
          some (CSS_LINE ++ " " ++ CSS_LINE ++ "-" ++
            getSeverityClass pm.severity)) := by
  unfold createLineDecoration
  rw [h]
  by_cases h1 : cfg.enableLineHighlights <;>
    by_cases h2 : cfg.enableInlineMessages <;>
      by_cases h3 : cfg.enableGutterIcons <;>
        simp [h1, h2, h3]

/-- The head of the severity-descending sort of a group is a maximal-severity
member of the group. -/
theorem head_sevSort_max (g : List Marker) (pm : Marker)
    (hh : (g.insertionSort sevGE).head? = some pm) :
    pm ∈ g ∧ ∀ m ∈ g, m.severity ≤ pm.severity := by
  have hperm := List.perm_insertionSort sevGE g
  have hsort : List.Pairwise sevGE (g.insertionSort sevGE) :=
    List.sorted_insertionSort sevGE g
  cases hsg : g.insertionSort sevGE with
  | nil => rw [hsg] at hh; cases hh
  | cons x t =>
    rw [hsg] at hh hperm hsort
    have hpmx : pm = x := by
      have : some x = some pm := hh ▸ rfl
      exact (Option.some_inj.mp this).symm
    subst hpmx
    constructor
    · exact hperm.mem_iff.mp (List.mem_cons_self _ _)
    · intro m hm
      rcases List.mem_cons.mp (hperm.mem_iff.mpr hm) with rfl | hmt
      · exact Nat.le_refl _
      · exact (List.pairwise_cons.mp hsort).1 m hmt

/-- Each entry of the builder's grouping is the non-empty, severity-sorted
sublist of markers starting on its line. -/
theorem dmGroup_entry (xs : List Marker) :
    ∀ e ∈ dmGroupMarkersByLine xs,
      e.2 = (xs.filter fun m => m.startLineNumber == e.1).insertionSort
        sevGE ∧ e.2 ≠ [] := by
  intro e he
  rw [dmGroup_eq] at he
  obtain ⟨b, hb, rfl⟩ := List.mem_map.mp he
  have hbf : b.2 = xs.filter fun m => m.startLineNumber == b.1 :=
    entry_groupMarkersByLine xs b hb
  constructor
  · show b.2.insertionSort sevGE = _
    rw [hbf]
  · have hkey : b.1 ∈ (groupMarkersByLine xs).map Prod.fst :=
      List.mem_map_of_mem Prod.fst hb
    rw [mem_keys_groupMarkersByLine] at hkey
    obtain ⟨m, hm, hml⟩ := List.mem_map.mp hkey
    have hmf : m ∈ xs.filter fun mm => mm.startLineNumber == b.1 :=
      List.mem_filter.mpr ⟨hm, by rw [beq_iff_eq]; exact hml⟩
    have hmem : m ∈ b.2.insertionSort sevGE := by
      rw [hbf]
      exact (List.perm_insertionSort sevGE _).mem_iff.mpr hmf
    exact List.ne_nil_of_mem hmem

/-- Every group entry contributes exactly one decoration, anchored at its
line, whose class (with highlights on) names the primary marker's severity
class. -/
theorem dmGroup_contribution (cfg : Config) (xs : List Marker) :
    ∀ e ∈ dmGroupMarkersByLine xs, ∃ d pm,
      e.2.head? = some pm ∧
      createLineDecoration cfg true e.1 e.2 = some d ∧
      (match e.2.head? with
        | none => ([] : List Decoration)
        | some _ => (createLineDecoration cfg true e.1 e.2).toList) = [d] ∧
      d.range.startLineNumber = e.1 ∧
      (cfg.enableLineHighlights = true →
        d.options.className = some (CSS_LINE ++ " " ++ CSS_LINE ++ "-" ++
          getSeverityClass pm.severity)) := by
  intro e he
  obtain ⟨hfilter, hne⟩ := dmGroup_entry xs e he
  obtain ⟨pm, t, ht⟩ := List.exists_cons_of_ne_nil hne
  have hh : e.2.head? = some pm := by rw [ht]; rfl
  obtain ⟨d, hd, hdr, hdc⟩ := createLineDecoration_props cfg e.1 e.2 pm hh
  refine ⟨d, pm, hh, hd, ?_, hdr, hdc⟩
  rw [hh, hd]
  rfl

/-- C5: with the host `Range` constructor available, decoration construction
emits exactly one decoration per line carrying at least one marker (and none
for other lines), and — with line highlights enabled — that decoration's
severity class is the class of a highest-severity marker on its line. -/
theorem createDecorations_props (cfg : Config) (xs : List Marker) :
    (∀ l : Nat,
      (createDecorations cfg true xs).countP
          (fun d => d.range.startLineNumber == l) =
        if l ∈ xs.map (·.startLineNumber) then 1 else 0) ∧
    (cfg.enableLineHighlights = true →
      ∀ d ∈ createDecorations cfg true xs,
        ∃ pm ∈ xs,
          pm.startLineNumber = d.range.startLineNumber ∧
          (∀ m ∈ xs, m.startLineNumber = d.range.startLineNumber →
            m.severity ≤ pm.severity) ∧
          d.options.className =
            some (CSS_LINE ++ " " ++ CSS_LINE ++ "-" ++
              getSeverityClass pm.severity)) := by
  have hnodup : ((dmGroupMarkersByLine xs).map Prod.fst).Nodup := by
    rw [dmGroup_keys]
    exact groupMarkersByLine_keys_nodup xs
  constructor
  · intro l
    rw [createDecorations_eq, List.countP_eq_length_filter,
      List.filter_flatten, List.map_map]
    have hz : ∀ e ∈ dmGroupMarkersByLine xs, e.1 ≠ l →
        ((List.filter fun d : Decoration => d.range.startLineNumber == l) ∘
          fun e : Nat × List Marker =>
            match e.2.head? with
            | none => ([] : List Decoration)
            | some _ => (createLineDecoration cfg true e.1 e.2).toList) e =
          [] := by
      intro e he hne
      obtain ⟨d, pm, hh, hd, hG, hdr, -⟩ := dmGroup_contribution cfg xs e he
      show List.filter _ (match e.2.head? with
        | none => ([] : List Decoration)
        | some _ => (createLineDecoration cfg true e.1 e.2).toList) = []
      rw [hG]
      rw [List.filter_eq_nil_iff]
      intro d2 hd2 hbeq
      rcases List.mem_singleton.mp hd2 with rfl
      exact hne (hdr ▸ beq_iff_eq.mp hbeq)
    by_cases hkey : l ∈ xs.map (·.startLineNumber)
    · rw [if_pos hkey]
      have hkey2 : l ∈ (dmGroupMarkersByLine xs).map Prod.fst := by
        rw [dmGroup_keys, mem_keys_groupMarkersByLine]
        exact hkey
      obtain ⟨e0, he0, hfst⟩ := List.mem_map.mp hkey2
      rw [flatten_map_eq_single l _ (dmGroupMarkersByLine xs) hnodup hz
        e0 he0 hfst]
      obtain ⟨d, pm, hh, hd, hG, hdr, -⟩ := dmGroup_contribution cfg xs e0 he0
      show (List.filter _ (match e0.2.head? with
        | none => ([] : List Decoration)
        | some _ => (createLineDecoration cfg true e0.1 e0.2).toList)).length
        = 1
      rw [hG]
      have : (d.range.startLineNumber == l) = true := by
        rw [beq_iff_eq, hdr, hfst]
      rw [List.filter_cons, this]
      rfl
    · rw [if_neg hkey]
      have hall : ∀ e ∈ dmGroupMarkersByLine xs, e.1 ≠ l := by
        intro e he hEq
        apply hkey
        have : e.1 ∈ (dmGroupMarkersByLine xs).map Prod.fst :=
          List.mem_map_of_mem Prod.fst he
        rw [dmGroup_keys, mem_keys_groupMarkersByLine] at this
        exact hEq ▸ this
      rw [flatten_map_eq_nil l _ (dmGroupMarkersByLine xs) hz]
      · rfl
      · intro hmem
        obtain ⟨e, he, hfst⟩ := List.mem_map.mp hmem
        exact hall e he hfst
  · intro hl d hd
    rw [createDecorations_eq] at hd
    obtain ⟨li, hli, hdli⟩ := List.mem_flatten.mp hd
    obtain ⟨e, he, rfl⟩ := List.mem_map.mp hli
    obtain ⟨d0, pm, hh, hcd, hG, hdr, hdc⟩ := dmGroup_contribution cfg xs e he
    rw [hG] at hdli
    rcases List.mem_singleton.mp hdli with rfl
    obtain ⟨hfilter, -⟩ := dmGroup_entry xs e he
    have hmax := head_sevSort_max
      (xs.filter fun m => m.startLineNumber == e.1) pm
      (by rw [← hfilter]; exact hh)
    have hpmx : pm ∈ xs := (List.mem_filter.mp hmax.1).1
    have hpml : pm.startLineNumber = e.1 :=
      beq_iff_eq.mp (List.mem_filter.mp hmax.1).2
    refine ⟨pm, hpmx, ?_, ?_, hdc hl⟩
    · rw [hpml, hdr]
    · intro m hm hml
      apply hmax.2
      apply List.mem_filter.mpr
      refine ⟨hm, ?_⟩
      rw [beq_iff_eq, hml, hdr]

/-- C5 witness: concrete markers on lines 1 and 3 — one decoration counted
for line 1, and every decoration carries a highest-severity class. -/
theorem createDecorations_props_witness :
    (createDecorations cfgAll true [mk1, mk2, mk3]).countP
        (fun d => d.range.startLineNumber == 1) = 1 ∧
    ∃ pm ∈ [mk1, mk2, mk3],
      pm.startLineNumber =
        ((createDecorations cfgAll true [mk1, mk2, mk3]).getD 0
          dDefault).range.startLineNumber ∧
      (∀ m ∈ [mk1, mk2, mk3],
        m.startLineNumber =
          ((createDecorations cfgAll true [mk1, mk2, mk3]).getD 0
            dDefault).range.startLineNumber →
        m.severity ≤ pm.severity) ∧
      ((createDecorations cfgAll true [mk1, mk2, mk3]).getD 0
        dDefault).options.className =
        some (CSS_LINE ++ " " ++ CSS_LINE ++ "-" ++
          getSeverityClass pm.severity) :=
  ⟨((createDecorations_props cfgAll [mk1, mk2, mk3]).1 1).trans (by decide),
    (createDecorations_props cfgAll [mk1, mk2, mk3]).2 (by decide)
      ((createDecorations cfgAll true [mk1, mk2, mk3]).getD 0 dDefault)
      (by decide)⟩

/-- Reading an original index after allocating a fresh array. -/
theorem readArr_alloc_old (st : Store) (c : List Marker) (r : Nat)
    (h : r < st.length) : readArr (allocArr st c).1 r = readArr st r := by
  show (st ++ [c]).getD r [] = st.getD r []
  unfold List.getD
  rw [List.get?_append h]

/-- Reading the freshly allocated array. -/
theorem readArr_alloc_new (st : Store) (c : List Marker) :
    readArr (allocArr st c).1 (allocArr st c).2 = c := by
  show (st ++ [c]).getD st.length [] = c
  unfold List.getD
  rw [List.get?_append_right (Nat.le_refl _)]
  simp

/-- Reading another index after an in-place write. -/
theorem readArr_write_ne (st : Store) (r : Nat) (v : List Marker)
    (r2 : Nat) (h : r2 ≠ r) :
    readArr (writeArr st r v) r2 = readArr st r2 := by
  show (st.set r v).getD r2 [] = st.getD r2 []
  unfold List.getD
  rw [List.get?_set_ne _ _ (fun hEq => h hEq.symm)]

/-- Reading the written index after an in-place write. -/
theorem readArr_write_eq (st : Store) (r : Nat) (v : List Marker)
    (h : r < st.length) : readArr (writeArr st r v) r = v := by
  show (st.set r v).getD r [] = v
  unfold List.getD
  rw [List.get?_set_eq_of_lt v h]
  simp

/-- Allocating a fresh array preserves the original arrays. -/
theorem storeAlloc_extends (st : Store) (p : Store × Nat) (c : List Marker)
    (hp : StoreExtends st p) :
    StoreExtends st (allocArr p.1 c) ∧
    readArr (allocArr p.1 c).1 (allocArr p.1 c).2 = c := by
  obtain ⟨h1, h2, h3, h4⟩ := hp
  refine ⟨⟨?_, ?_, ?_, ?_⟩, readArr_alloc_new _ _⟩
  · show st.length ≤ (p.1 ++ [c]).length
    rw [List.length_append]
    omega
  · show st.length ≤ p.1.length
    exact h1
  · show p.1.length < (p.1 ++ [c]).length
    rw [List.length_append]
    simp
  · intro r hr
    rw [readArr_alloc_old p.1 c r (Nat.lt_of_lt_of_le hr h1)]
    exact h4 r hr

/-- The copy stage: fresh array holding the host array's content. -/
theorem storeCopy_spec (st : Store) (r0 : Nat) (h : r0 < st.length) :
    StoreExtends st (storeCopy st r0) ∧
    readArr (storeCopy st r0).1 (storeCopy st r0).2 = readArr st r0 := by
  refine ⟨⟨?_, Nat.le_refl _, ?_, ?_⟩, readArr_alloc_new st _⟩
  · show st.length ≤ (st ++ [readArr st r0]).length
    rw [List.length_append]
    omega
  · show st.length < (st ++ [readArr st r0]).length
    rw [List.length_append]
    simp
  · intro r hr
    exact readArr_alloc_old st _ r hr

/-- The severity stage: fresh array holding the severity-filtered content. -/
theorem storeSeverity_spec (cfg : Config) (st : Store) (p : Store × Nat)
    (hp : StoreExtends st p) :
    StoreExtends st (storeSeverity cfg p) ∧
    readArr (storeSeverity cfg p).1 (storeSeverity cfg p).2 =
      severityFilterStep cfg (readArr p.1 p.2) :=
  storeAlloc_extends st p _ hp

/-- The sort stage: sorts in place without touching the original arrays. -/
theorem storeSort_spec (st : Store) (p : Store × Nat)
    (hp : StoreExtends st p) :
    StoreExtends st (storeSort p) ∧
    readArr (storeSort p).1 (storeSort p).2 =
      sortMarkers (readArr p.1 p.2) := by
  obtain ⟨h1, h2, h3, h4⟩ := hp
  constructor
  · refine ⟨?_, h2, ?_, ?_⟩
    · show st.length ≤ (p.1.set p.2 _).length
      rw [List.length_set]
      exact h1
    · show p.2 < (p.1.set p.2 _).length
      rw [List.length_set]
      exact h3
    · intro r hr
      show readArr (writeArr p.1 p.2 _) r = _
      rw [readArr_write_ne _ _ _ r (by omega)]
      exact h4 r hr
  · show readArr (writeArr p.1 p.2 _) p.2 = _
    exact readArr_write_eq p.1 p.2 _ h3

/-- The cursor stage refines `cursorFilterStep`. -/
theorem storeCursor_spec (cfg : Config) (cl : Option Nat) (st : Store)
    (p : Store × Nat) (hp : StoreExtends st p) :
    StoreExtends st (storeCursor cfg cl p) ∧
    readArr (storeCursor cfg cl p).1 (storeCursor cfg cl p).2 =
      cursorFilterStep cfg cl (readArr p.1 p.2) := by
  unfold storeCursor cursorFilterStep
  by_cases h : cfg.followCursor = FollowCursor.activeLine
  · rw [if_pos h, if_pos h]
    cases cl with
    | none => exact ⟨hp, rfl⟩
    | some c =>
      by_cases hc : (c == 0) = true
      · show StoreExtends st (if (c == 0) = true then p else _) ∧
          readArr (if (c == 0) = true then p else _).1
            (if (c == 0) = true then p else _).2 =
          (if (c == 0) = true then readArr p.1 p.2 else _)
        rw [if_pos hc, if_pos hc]
        exact ⟨hp, rfl⟩
      · show StoreExtends st (if (c == 0) = true then p
            else allocArr p.1 ((readArr p.1 p.2).filter fun marker =>
              marker.startLineNumber == c)) ∧
          readArr (if (c == 0) = true then p
            else allocArr p.1 ((readArr p.1 p.2).filter fun marker =>
              marker.startLineNumber == c)).1
            (if (c == 0) = true then p
            else allocArr p.1 ((readArr p.1 p.2).filter fun marker =>
              marker.startLineNumber == c)).2 =
          (if (c == 0) = true then readArr p.1 p.2
            else (readArr p.1 p.2).filter fun marker =>
              marker.startLineNumber == c)
        rw [if_neg hc, if_neg hc]
        exact storeAlloc_extends st p _ hp
  · rw [if_neg h, if_neg h]
    exact ⟨hp, rfl⟩

/-- The cap stage refines `perLineCapStep`. -/
theorem storeCap_spec (cfg : Config) (st : Store) (p : Store × Nat)
    (hp : StoreExtends st p) :
    StoreExtends st (storeCap cfg p) ∧
    readArr (storeCap cfg p).1 (storeCap cfg p).2 =
      perLineCapStep cfg (readArr p.1 p.2) := by
  unfold storeCap perLineCapStep
  by_cases h : 0 < cfg.maxMarkersPerLine
  · rw [if_pos h, if_pos h]
    exact storeAlloc_extends st p _ hp
  · rw [if_neg h, if_neg h]
    exact ⟨hp, rfl⟩

/-- The capped rebuild only reuses markers of its input. -/
theorem perLineCapStep_subset (cfg : Config) (xs : List Marker) :
    ∀ m ∈ perLineCapStep cfg xs, m ∈ xs := by
  intro m hm
  unfold perLineCapStep at hm
  by_cases hcap : 0 < cfg.maxMarkersPerLine
  · rw [if_pos hcap] at hm
    obtain ⟨li, hli, hmli⟩ := List.mem_flatten.mp hm
    obtain ⟨e, he, rfl⟩ := List.mem_map.mp hli
    have hm2 : m ∈ e.2 := List.take_subset _ _ hmli
    rw [entry_groupMarkersByLine xs e he] at hm2
    exact (List.mem_filter.mp hm2).1
  · rw [if_neg hcap] at hm
    exact hm

/-- Every marker the pipeline retains is one of the input markers. -/
theorem filterMarkers_subset (cfg : Config) (cl : Option Nat)
    (ms : List Marker) : ∀ m ∈ filterMarkers cfg cl ms, m ∈ ms := by
  intro m hm
  have h1 := perLineCapStep_subset cfg _ m hm
  have h2 := (cursorFilterStep_sublist cfg cl _).subset h1
  have h3 : m ∈ severityFilterStep cfg ms :=
    (List.perm_insertionSort markerLE _).mem_iff.mp h2
  exact (List.mem_filter.mp h3).1

/-- C8: one recomputation of the pipeline leaves the host-supplied marker
array unchanged (same content, same order), the result array refines the
pure pipeline, and every retained marker is one of the host's marker
records (none is fabricated or replaced). -/
theorem filterMarkersStore_frame (cfg : Config) (cl : Option Nat)
    (st : Store) (r0 : Nat) (h : r0 < st.length) :
    readArr (filterMarkersStore cfg cl st r0).1 r0 = readArr st r0 ∧
    readArr (filterMarkersStore cfg cl st r0).1
        (filterMarkersStore cfg cl st r0).2 =
      filterMarkers cfg cl (readArr st r0) ∧
    (∀ m ∈ filterMarkers cfg cl (readArr st r0), m ∈ readArr st r0) := by
  obtain ⟨he1, hc1⟩ := storeCopy_spec st r0 h
  obtain ⟨he2, hc2⟩ := storeSeverity_spec cfg st (storeCopy st r0) he1
  obtain ⟨he3, hc3⟩ := storeSort_spec st _ he2
  obtain ⟨he4, hc4⟩ := storeCursor_spec cfg cl st _ he3
  obtain ⟨he5, hc5⟩ := storeCap_spec cfg st _ he4
  rw [hc1] at hc2
  rw [hc2] at hc3
  rw [hc3] at hc4
  rw [hc4] at hc5
  refine ⟨?_, ?_, filterMarkers_subset cfg cl (readArr st r0)⟩
  · exact he5.2.2.2 r0 h
  · exact hc5

/-- C8 witness: a one-array store with two markers, untouched by the run. -/
theorem filterMarkersStore_frame_witness :
    (0 : Nat) < ([[mk1, mk3]] : Store).length ∧
    readArr (filterMarkersStore cfgAll none [[mk1, mk3]] 0).1 0 =
      readArr [[mk1, mk3]] 0 :=
  ⟨by decide,
    (filterMarkersStore_frame cfgAll none [[mk1, mk3]] 0 (by decide)).1⟩

/-- Transport of a retired generation along unchanged timer fields. -/
theorem inv_of_timer (g : Nat) (s s2 : LensState)
    (hp : s2.pending = s.pending) (hg : s2.debounceGen = s.debounceGen)
    (h : GenInvariant g s) : GenInvariant g s2 := by
  constructor
  · rw [hg]
    exact h.1
  · intro t ht
    rw [hp] at ht
    exact h.2 t ht

/-- Scheduling under the live handle never resurrects a retired
generation. -/
theorem scheduleUpdate_inv (g : Nat) (s : LensState)
    (h : GenInvariant g s) : GenInvariant g (scheduleUpdate s) := by
  obtain ⟨h1, h2⟩ := h
  refine ⟨h1, ?_⟩
  intro t ht
  have ht2 : t ∈ s.pending.filter (fun t => t.1 != s.debounceGen) ++
      [(s.debounceGen, s.debounceDelay)] := ht
  rcases List.mem_append.mp ht2 with hin | hin
  · exact h2 t (List.mem_of_mem_filter hin)
  · rcases List.mem_singleton.mp hin with rfl
    intro hEq
    rw [show ((s.debounceGen, s.debounceDelay)).1 = s.debounceGen from rfl]
      at hEq
    omega

/-- Cancelling preserves a retired generation. -/
theorem cancelUpdate_inv (g : Nat) (s : LensState)
    (h : GenInvariant g s) : GenInvariant g (cancelUpdate s) := by
  refine ⟨h.1, ?_⟩
  intro t ht
  have ht2 : t ∈ s.pending.filter (fun t => t.1 != s.debounceGen) := ht
  exact h.2 t (List.mem_of_mem_filter ht2)

/-- The internal update leaves the debounce timer untouched. -/
theorem updateDecorationsInternal_timer (host : Host) (s : LensState) :
    (updateDecorationsInternal host s).1.pending = s.pending ∧
    (updateDecorationsInternal host s).1.debounceGen = s.debounceGen ∧
    (updateDecorationsInternal host s).1.debounceDelay = s.debounceDelay := by
  unfold updateDecorationsInternal emitErrorEvent
  dsimp only
  repeat' split
  all_goals exact ⟨rfl, rfl, rfl⟩

/-- Clearing decorations leaves the debounce timer untouched. -/
theorem clearDecorations_timer (host : Host) (s : LensState) :
    (clearDecorations host s).1.pending = s.pending ∧
    (clearDecorations host s).1.debounceGen = s.debounceGen ∧
    (clearDecorations host s).1.debounceDelay = s.debounceDelay := by
  unfold clearDecorations
  cases host.deltaDecorations s.dmDecorations [] with
  | error e => exact ⟨rfl, rfl, rfl⟩
  | ok handles => exact ⟨rfl, rfl, rfl⟩

/-- Initialization keeps the live handle (it only schedules under it). -/
theorem initializeLens_timer (host : Host) (s : LensState) :
    (initializeLens host s).1.debounceGen = s.debounceGen ∧
    (initializeLens host s).1.debounceDelay = s.debounceDelay := by
  unfold initializeLens
  by_cases h1 : (!s.config.enabled) = true
  · rw [if_pos h1]
    exact ⟨rfl, rfl⟩
  · rw [if_neg h1]
    cases host.injectStylesOp with
    | error e => exact ⟨rfl, rfl⟩
    | ok _ =>
      cases isMonacoInitialized host with
      | error e => exact ⟨rfl, rfl⟩
      | ok ready =>
        cases ready with
        | false => exact ⟨rfl, rfl⟩
        | true =>
          cases host.setupListenersOp with
          | error e => exact ⟨rfl, rfl⟩
          | ok _ => exact ⟨rfl, rfl⟩

/-- Initialization preserves a retired generation. -/
theorem initializeLens_inv (host : Host) (g : Nat) (s : LensState)
    (h : GenInvariant g s) : GenInvariant g (initializeLens host s).1 := by
  unfold initializeLens
  by_cases h1 : (!s.config.enabled) = true
  · rw [if_pos h1]
    exact h
  · rw [if_neg h1]
    cases host.injectStylesOp with
    | error e => exact h
    | ok _ =>
      cases isMonacoInitialized host with
      | error e => exact h
      | ok ready =>
        cases ready with
        | false => exact h
        | true =>
          cases host.setupListenersOp with
          | error e => exact h
          | ok _ => exact scheduleUpdate_inv g s h

/-- The timer-rebuild branch of `updateOptions` preserves (and in fact
creates) retired generations. -/
theorem updateOptionsDelay_inv (u : Options) (g : Nat) (s : LensState)
    (h : GenInvariant g s) : GenInvariant g (updateOptionsDelay u s) := by
  unfold updateOptionsDelay
  by_cases h1 : u.updateDelay.isSome
  · rw [if_pos h1]
    have hc := cancelUpdate_inv g s h
    exact ⟨Nat.lt_succ_of_lt hc.1, hc.2⟩
  · rw [if_neg h1]
    exact h

/-- Every lifecycle operation preserves a retired generation: a cancelled
debounce task never reappears. -/
theorem applyOp_inv (host : Host) (g : Nat) (op : LifeOp) (s : LensState)
    (h : GenInvariant g s) : GenInvariant g (applyOp host op s).1 := by
  cases op with
  | enableOp =>
    show GenInvariant g (enable host s).1
    unfold enable
    by_cases h1 : (!s.config.enabled) = true
    · rw [if_pos h1]
      exact initializeLens_inv host g _ h
    · rw [if_neg h1]
      exact h
  | disableOp =>
    show GenInvariant g (disable host s).1
    unfold disable
    by_cases h1 : s.config.enabled
    · rw [if_pos (by simp [h1])]
      have ht := clearDecorations_timer host
        { s with config := { s.config with enabled := false } }
      exact inv_of_timer g _ _ ht.1 ht.2.1 h
    · rw [if_neg (by simp [h1])]
      exact h
  | toggleOp =>
    show GenInvariant g (toggle host s).1
    unfold toggle enable disable
    by_cases h1 : s.config.enabled
    · rw [if_pos (by simp [h1]), if_pos (by simp [h1])]
      have ht := clearDecorations_timer host
        { s with config := { s.config with enabled := false } }
      exact inv_of_timer g _ _ ht.1 ht.2.1 h
    · rw [if_neg (by simp [h1]), if_pos (by simp [h1])]
      exact initializeLens_inv host g _ h
  | refreshOp =>
    show GenInvariant g (updateDecorationsInternal host s).1
    have ht := updateDecorationsInternal_timer host s
    exact inv_of_timer g _ _ ht.1 ht.2.1 h
  | disposeOp =>
    show GenInvariant g (dispose host s).1
    unfold dispose
    by_cases h1 : s.isDisposed
    · rw [if_pos h1]
      exact h
    · rw [if_neg h1]
      dsimp only
      have hinv2 : GenInvariant g
          (cancelUpdate { s with isDisposed := true }) :=
        cancelUpdate_inv g _ h
      have ht := clearDecorations_timer host
        (cancelUpdate { s with isDisposed := true })
      cases hcd : clearDecorations host
          (cancelUpdate { s with isDisposed := true }) with
      | mk s3 r =>
        rw [hcd] at ht
        cases r with
        | error e => exact inv_of_timer g _ s3 ht.1 ht.2.1 hinv2
        | ok _ =>
          cases host.disposeListenersOp with
          | error e => exact inv_of_timer g _ s3 ht.1 ht.2.1 hinv2
          | ok _ => exact inv_of_timer g _ s3 ht.1 ht.2.1 hinv2
  | updateOptionsOp u =>
    show GenInvariant g (updateOptions host u s).1
    unfold updateOptions
    have hmd : GenInvariant g
        (updateOptionsDelay u (updateOptionsMerge u s)) :=
      updateOptionsDelay_inv u g _ h
    cases u.enabled with
    | none => exact scheduleUpdate_inv g _ hmd
    | some b =>
      dsimp only
      by_cases h1 : (b && !s.config.enabled) = true
      · rw [if_pos h1]
        exact initializeLens_inv host g _ hmd
      · rw [if_neg h1]
        by_cases h2 : (!b && s.config.enabled) = true
        · rw [if_pos h2]
          have ht := clearDecorations_timer host
            (updateOptionsDelay u (updateOptionsMerge u s))
          exact inv_of_timer g _ _ ht.1 ht.2.1 hmd
        · rw [if_neg h2]
          exact hmd
  | fireOp =>
    show GenInvariant g
      (match s.pending with
        | [] => (s, Except.ok ())
        | _ :: rest =>
          updateDecorationsInternal host { s with pending := rest }).1
    cases hs : s.pending with
    | nil => exact inv_of_timer g s s rfl rfl h
    | cons t rest =>
      have hrest : GenInvariant g { s with pending := rest } := by
        refine ⟨h.1, ?_⟩
        intro t2 ht2
        exact h.2 t2 (by rw [hs]; exact List.mem_cons_of_mem t ht2)
      have ht := updateDecorationsInternal_timer host
        { s with pending := rest }
      exact inv_of_timer g _ _ ht.1 ht.2.1 hrest

/-- A retired generation stays retired across any sequence of lifecycle
operations and timer firings. -/
theorem runOps_inv (host : Host) (g : Nat) :
    ∀ (ops : List LifeOp) (s : LensState), GenInvariant g s →
      GenInvariant g (runOps host ops s) := by
  intro ops
  induction ops with
  | nil => exact fun s h => h
  | cons op ops ih =>
    intro s h
    exact ih _ (applyOp_inv host g op s h)

/-- The dispatch of `updateOptions` preserves a generation retired by its
timer-rebuild stage. -/
theorem updateOptions_inv_of_delay (host : Host) (u : Options) (g : Nat)
    (s : LensState)
    (hinv : GenInvariant g (updateOptionsDelay u (updateOptionsMerge u s))) :
    GenInvariant g (updateOptions host u s).1 := by
  unfold updateOptions
  cases u.enabled with
  | none => exact scheduleUpdate_inv g _ hinv
  | some b =>
    dsimp only
    by_cases h1 : (b && !s.config.enabled) = true
    · rw [if_pos h1]
      exact initializeLens_inv host g _ hinv
    · rw [if_neg h1]
      by_cases h2 : (!b && s.config.enabled) = true
      · rw [if_pos h2]
        have ht := clearDecorations_timer host
          (updateOptionsDelay u (updateOptionsMerge u s))
        exact inv_of_timer g _ _ ht.1 ht.2.1 hinv
      · rw [if_neg h2]
        exact hinv

/-- The dispatch of `updateOptions` carries the rebuilt handle unchanged. -/
theorem updateOptions_timer_fields (host : Host) (u : Options)
    (s : LensState) :
    (updateOptions host u s).1.debounceGen =
      (updateOptionsDelay u (updateOptionsMerge u s)).debounceGen ∧
    (updateOptions host u s).1.debounceDelay =
      (updateOptionsDelay u (updateOptionsMerge u s)).debounceDelay := by
  unfold updateOptions
  cases u.enabled with
  | none => exact ⟨rfl, rfl⟩
  | some b =>
    dsimp only
    by_cases h1 : (b && !s.config.enabled) = true
    · rw [if_pos h1]
      exact initializeLens_timer host _
    · rw [if_neg h1]
      by_cases h2 : (!b && s.config.enabled) = true
      · rw [if_pos h2]
        have ht := clearDecorations_timer host
          (updateOptionsDelay u (updateOptionsMerge u s))
        exact ⟨ht.2.1, ht.2.2⟩
      · rw [if_neg h2]
        exact ⟨rfl, rfl⟩

/-- C7: when `updateOptions` is called with a (changed) `updateDelay`, the
old debounce handle's pending task is cancelled and a fresh handle is built
with the new delay: afterwards the live delay is the new one, the live
generation is newer, no pending task carries the old generation — and no
later lifecycle operation or timer firing can ever make one reappear, so a
recomputation pending under the old timer never fires. -/
theorem updateOptions_rebuilds_debounce (host : Host) (u : Options)
    (s : LensState) (d : Nat) (hu : u.updateDelay = some d)
    (hne : d ≠ s.config.updateDelay) :
    (updateOptions host u s).1.debounceDelay = d ∧
    s.debounceGen < (updateOptions host u s).1.debounceGen ∧
    (∀ t ∈ (updateOptions host u s).1.pending, t.1 ≠ s.debounceGen) ∧
    (∀ ops : List LifeOp,
      ∀ t ∈ (runOps host ops (updateOptions host u s).1).pending,
        t.1 ≠ s.debounceGen) := by
  have hsome : u.updateDelay.isSome = true := by rw [hu]; rfl
  have hF1 : (updateOptionsDelay u (updateOptionsMerge u s)).debounceDelay =
      d := by
    unfold updateOptionsDelay
    rw [if_pos hsome]
    show u.updateDelay.getD s.config.updateDelay = d
    rw [hu]
    rfl
  have hF2 : (updateOptionsDelay u (updateOptionsMerge u s)).debounceGen =
      s.debounceGen + 1 := by
    unfold updateOptionsDelay
    rw [if_pos hsome]
    rfl
  have hF3 : GenInvariant s.debounceGen
      (updateOptionsDelay u (updateOptionsMerge u s)) := by
    constructor
    · rw [hF2]
      exact Nat.lt_succ_self _
    · intro t ht
      have ht2 : t ∈ (updateOptionsDelay u (updateOptionsMerge u s)).pending :=
        ht
      unfold updateOptionsDelay at ht2
      rw [if_pos hsome] at ht2
      have ht3 : t ∈ s.pending.filter (fun t => t.1 != s.debounceGen) := ht2
      simpa using (List.mem_filter.mp ht3).2
  have hfields := updateOptions_timer_fields host u s
  have hinv := updateOptions_inv_of_delay host u s.debounceGen s hF3
  refine ⟨hfields.2.trans hF1, ?_, hinv.2, ?_⟩
  · rw [hfields.1, hF2]
    exact Nat.lt_succ_self _
  · intro ops t ht
    exact (runOps_inv host s.debounceGen ops _ hinv).2 t ht

/-- C7 witness: changing the delay from 300 to 100 on a concrete state. -/
theorem updateOptions_rebuilds_debounce_witness :
    uDelay100.updateDelay = some 100 ∧
    (100 : Nat) ≠ st0.config.updateDelay ∧
    (updateOptions goodHost uDelay100 st0).1.debounceDelay = 100 ∧
    st0.debounceGen < (updateOptions goodHost uDelay100 st0).1.debounceGen :=
  ⟨rfl, by decide,
    (updateOptions_rebuilds_debounce goodHost uDelay100 st0 100 rfl
      (by decide)).1,
    (updateOptions_rebuilds_debounce goodHost uDelay100 st0 100 rfl
      (by decide)).2.1⟩

/-- One successful recomputation: with markers, cursor and submission all
answering, the internal update submits exactly the batch computed from the
configuration and the marker snapshot, and appends it to the log. -/
theorem updateDecorationsInternal_run (host : Host) (s0 : LensState)
    (hen : s0.config.enabled = true) (hdis0 : s0.isDisposed = false)
    (hmodel : host.getModel = Except.ok (some ()))
    (hapi1 : host.hasGetModelMarkersAPI = true)
    (hapi2 : host.hasOnDidChangeMarkersAPI = true)
    (mk : Option (List Marker)) (hmk : host.getModelMarkers = Except.ok mk)
    (c : Option Nat) (hpos : host.getPosition = Except.ok c)
    (hdd : ∀ hnd b, ∃ r, host.deltaDecorations hnd b = Except.ok r) :
    ∀ s' : LensState, s'.config = s0.config → s'.isDisposed = false →
      ∃ r, updateDecorationsInternal host s' =
        ({ s' with
            dmDecorations := r
            dmLastCount :=
              (createDecorations s0.config host.hasRange
                (filterMarkers s0.config
                  (if s0.config.followCursor = FollowCursor.activeLine
                    then c else none) (mk.getD []))).length
            submittedBatches := s'.submittedBatches ++
              [createDecorations s0.config host.hasRange
                (filterMarkers s0.config
                  (if s0.config.followCursor = FollowCursor.activeLine
                    then c else none) (mk.getD []))] },
          Except.ok ()) := by
  have hmi : isMonacoInitialized host = Except.ok true := by
    unfold isMonacoInitialized
    simp [hapi1, hapi2, hmodel]
  intro s' hcfg hdis
  unfold updateDecorationsInternal
  dsimp only
  rw [if_neg (by simp [hdis, hcfg, hen])]
  rw [hmodel, hmi, hmk, hcfg]
  dsimp only
  by_cases hfc : s0.config.followCursor = FollowCursor.activeLine
  · rw [if_pos hfc, if_pos hfc, hpos]
    dsimp only
    obtain ⟨r, hr⟩ := hdd s'.dmDecorations
      (createDecorations s0.config host.hasRange
        (filterMarkers s0.config c (mk.getD [])))
    rw [hr]
    exact ⟨r, rfl⟩
  · rw [if_neg hfc, if_neg hfc]
    dsimp only
    obtain ⟨r, hr⟩ := hdd s'.dmDecorations
      (createDecorations s0.config host.hasRange
        (filterMarkers s0.config none (mk.getD [])))
    rw [hr]
    exact ⟨r, rfl⟩

/-- C9: with a fixed marker snapshot, fixed cursor and fixed configuration,
two consecutive `refresh()` calls submit decoration batches of identical
size and identical content (the same batch `B`, twice). -/
theorem refresh_deterministic (host : Host) (s : LensState)
    (hen : s.config.enabled = true) (hdis : s.isDisposed = false)
    (hmodel : host.getModel = Except.ok (some ()))
    (hapi1 : host.hasGetModelMarkersAPI = true)
    (hapi2 : host.hasOnDidChangeMarkersAPI = true)
    (mk : Option (List Marker)) (hmk : host.getModelMarkers = Except.ok mk)
    (c : Option Nat) (hpos : host.getPosition = Except.ok c)
    (hdd : ∀ hnd b, ∃ r, host.deltaDecorations hnd b = Except.ok r) :
    ∃ B, (refresh host s).1.submittedBatches =
        s.submittedBatches ++ [B] ∧
      (refresh host (refresh host s).1).1.submittedBatches =
        s.submittedBatches ++ [B] ++ [B] := by
  have hstep := updateDecorationsInternal_run host s hen hdis hmodel hapi1
    hapi2 mk hmk c hpos hdd
  obtain ⟨r1, h1⟩ := hstep s rfl hdis
  refine ⟨createDecorations s.config host.hasRange
    (filterMarkers s.config
      (if s.config.followCursor = FollowCursor.activeLine then c else none)
      (mk.getD [])), ?_, ?_⟩
  · show (updateDecorationsInternal host s).1.submittedBatches = _
    rw [h1]
  · obtain ⟨r2, h2⟩ := hstep (updateDecorationsInternal host s).1
      (by rw [h1]) (by rw [h1]; exact hdis)
    show (updateDecorationsInternal host
      (updateDecorationsInternal host s).1).1.submittedBatches = _
    rw [h2]
    dsimp only
    rw [h1]

/-- C9 witness: two refreshes on a concrete host and state. -/
theorem refresh_deterministic_witness :
    ∃ B, (refresh goodHost st0).1.submittedBatches =
        st0.submittedBatches ++ [B] ∧
      (refresh goodHost (refresh goodHost st0).1).1.submittedBatches =
        st0.submittedBatches ++ [B] ++ [B] :=
  refresh_deterministic goodHost st0 rfl rfl rfl rfl rfl
    (some [mk1, mk2, mk3]) rfl (some 1) rfl
    (fun hnd b => ⟨(List.range b.length).map fun i => toString i, rfl⟩)

/-- The initialization check can only throw when `editor.getModel()`
throws. -/
theorem isMonacoInitialized_ok (host : Host)
    (hgm : exceptOk host.getModel = true) :
    ∃ b, isMonacoInitialized host = Except.ok b := by
  unfold isMonacoInitialized
  split
  · cases hgmv : host.getModel with
    | error e =>
      rw [hgmv] at hgm
      simp [exceptOk] at hgm
    | ok mo => exact ⟨mo.isSome, rfl⟩
  · exact ⟨false, rfl⟩

/-- The recomputation never throws when `editor.getModel()` answers: every
failure inside its `try` block (marker query, cursor query, decoration
submission) is caught and reported, not rethrown. -/
theorem updateDecorationsInternal_ok (host : Host) (s : LensState)
    (hgm : exceptOk host.getModel = true) :
    exceptOk (updateDecorationsInternal host s).2 = true := by
  obtain ⟨b, hmi⟩ := isMonacoInitialized_ok host hgm
  unfold updateDecorationsInternal emitErrorEvent
  dsimp only
  repeat' split
  all_goals first | rfl | (exfalso; simp_all [exceptOk])

/-- Initialization never throws when style injection, listener setup and
the model lookup answer. -/
theorem initializeLens_ok (host : Host) (s : LensState)
    (hgm : exceptOk host.getModel = true)
    (hst : exceptOk host.injectStylesOp = true)
    (hsl : exceptOk host.setupListenersOp = true) :
    exceptOk (initializeLens host s).2 = true := by
  obtain ⟨b, hmi⟩ := isMonacoInitialized_ok host hgm
  unfold initializeLens
  by_cases h1 : (!s.config.enabled) = true
  · rw [if_pos h1]
    rfl
  · rw [if_neg h1]
    cases hstv : host.injectStylesOp with
    | error e =>
      rw [hstv] at hst
      simp [exceptOk] at hst
    | ok _ =>
      rw [hmi]
      cases b with
      | false => rfl
      | true =>
        cases hslv : host.setupListenersOp with
        | error e =>
          rw [hslv] at hsl
          simp [exceptOk] at hsl
        | ok _ => rfl

/-- Clearing decorations never throws when the empty-batch replacement
answers. -/
theorem clearDecorations_ok (host : Host) (s : LensState)
    (hclear : ∀ hnd, exceptOk (host.deltaDecorations hnd []) = true) :
    exceptOk (clearDecorations host s).2 = true := by
  unfold clearDecorations
  cases hcv : host.deltaDecorations s.dmDecorations [] with
  | error e =>
    have := hclear s.dmDecorations
    rw [hcv] at this
    simp [exceptOk] at this
  | ok r => rfl

/-- C6 (amended): provided the host calls made outside the recomputation's
`try`/`catch` do not throw — `editor.getModel()`, style injection, listener
registration and disposal, and the empty-batch decoration clearing — none
of `enable`, `disable`, `toggle`, `refresh`, `updateOptions`, `dispose`
(nor a debounce firing) propagates an exception, for every state and every
options argument; and a failing marker query during `refresh` is reported
via the `error` event while `refresh` still completes normally. -/
theorem lifecycle_no_throw (host : Host)
    (hgm : exceptOk host.getModel = true)
    (hst : exceptOk host.injectStylesOp = true)
    (hsl : exceptOk host.setupListenersOp = true)
    (hdl : exceptOk host.disposeListenersOp = true)
    (hclear : ∀ hnd, exceptOk (host.deltaDecorations hnd []) = true) :
    (∀ (op : LifeOp) (s : LensState),
      exceptOk (applyOp host op s).2 = true) ∧
    (∀ s : LensState, s.config.enabled = true → s.isDisposed = false →
      host.hasGetModelMarkersAPI = true →
      host.hasOnDidChangeMarkersAPI = true →
      host.getModel = Except.ok (some ()) →
      (∃ e, host.getModelMarkers = Except.error e) →
      (refresh host s).2 = Except.ok () ∧
      (refresh host s).1.errorEvents = s.errorEvents + 1) := by
  constructor
  · intro op s
    cases op with
    | enableOp =>
      show exceptOk (enable host s).2 = true
      unfold enable
      by_cases h1 : (!s.config.enabled) = true
      · rw [if_pos h1]
        exact initializeLens_ok host _ hgm hst hsl
      · rw [if_neg h1]
        rfl
    | disableOp =>
      show exceptOk (disable host s).2 = true
      unfold disable
      by_cases h1 : s.config.enabled
      · rw [if_pos (by simp [h1])]
        exact clearDecorations_ok host _ hclear
      · rw [if_neg (by simp [h1])]
        rfl
    | toggleOp =>
      show exceptOk (toggle host s).2 = true
      unfold toggle disable enable
      by_cases h1 : s.config.enabled
      · rw [if_pos (by simp [h1]), if_pos (by simp [h1])]
        exact clearDecorations_ok host _ hclear
      · rw [if_neg (by simp [h1]), if_pos (by simp [h1])]
        exact initializeLens_ok host _ hgm hst hsl
    | refreshOp =>
      exact updateDecorationsInternal_ok host s hgm
    | disposeOp =>
      show exceptOk (dispose host s).2 = true
      unfold dispose
      by_cases h1 : s.isDisposed
      · rw [if_pos h1]
        rfl
      · rw [if_neg h1]
        dsimp only
        have hok := clearDecorations_ok host
          (cancelUpdate { s with isDisposed := true }) hclear
        cases hcd : clearDecorations host
            (cancelUpdate { s with isDisposed := true }) with
        | mk s3 r =>
          rw [hcd] at hok
          cases r with
          | error e => simp [exceptOk] at hok
          | ok _ =>
            cases hdlv : host.disposeListenersOp with
            | error e =>
              rw [hdlv] at hdl
              simp [exceptOk] at hdl
            | ok _ => rfl
    | updateOptionsOp u =>
      show exceptOk (updateOptions host u s).2 = true
      unfold updateOptions
      cases u.enabled with
      | none => rfl
      | some b =>
        dsimp only
        by_cases h1 : (b && !s.config.enabled) = true
        · rw [if_pos h1]
          exact initializeLens_ok host _ hgm hst hsl
        · rw [if_neg h1]
          by_cases h2 : (!b && s.config.enabled) = true
          · rw [if_pos h2]
            exact clearDecorations_ok host _ hclear
          · rw [if_neg h2]
            rfl
    | fireOp =>
      show exceptOk
        (match s.pending with
          | [] => (s, Except.ok ())
          | _ :: rest =>
            updateDecorationsInternal host { s with pending := rest }).2 =
        true
      cases s.pending with
      | nil => rfl
      | cons t rest => exact updateDecorationsInternal_ok host _ hgm
  · intro s hen hdis hapi1 hapi2 hmodel hfail
    obtain ⟨e, he⟩ := hfail
    have hmi : isMonacoInitialized host = Except.ok true := by
      unfold isMonacoInitialized
      simp [hapi1, hapi2, hmodel]
    show (updateDecorationsInternal host s).2 = Except.ok () ∧
      (updateDecorationsInternal host s).1.errorEvents = s.errorEvents + 1
    unfold updateDecorationsInternal
    rw [if_neg (by simp [hdis, hen])]
    rw [hmodel, hmi, he]
    exact ⟨rfl, rfl⟩

/-- C6 witness: on a concrete well-behaved host and state, `disable`
completes without an exception. -/
theorem lifecycle_no_throw_witness :
    exceptOk (applyOp goodHost LifeOp.disableOp st0).2 = true :=
  (lifecycle_no_throw goodHost rfl rfl rfl rfl (fun _ => rfl)).1
    LifeOp.disableOp st0

/-- C6 counterexample: a host whose decoration-replacement call throws
makes `disable()` propagate the exception to its caller (the clearing call
sits outside any `try`/`catch`), refuting the claim that no lifecycle
method ever propagates an exception for every instance and input. -/
theorem lifecycle_no_throw_cex :
    (applyOp badDeltaHost LifeOp.disableOp st0).2 =
      Except.error "delta failed" := rfl

end MonacoErrorLens
